import Mathlib

/-!
Verification of the OTFbuild pipeline of Terrarum-sans-bitmap.

Shallow embedding of the Python sources under `OTFbuild/` (`tga_reader.py`,
`glyph_parser.py`, `bitmap_tracer.py`, `sheet_config.py`, `hangul.py`,
`keming_machine.py`, `font_builder.py`, `opentype_features.py`).
Python `int` values are modelled as `Nat`/`Int`, 0/1 pixel bits as `Bool`,
bitmaps as `List (List Bool)` in row-major order, Python dicts as
insertion-ordered association lists, and code that can raise as
`Option`/`Except`-valued functions.
-/

namespace TerrarumOTF

/-! ## sheet_config.py: font metric constants -/

/-- `SCALE = 50` font units per pixel (sheet_config.py). -/
def SCALE : Int := 50

/-- `H = 20`: tall cell height in pixels (sheet_config.py). -/
def H : Nat := 20

/-- `W_HANGUL_BASE = 13`: Hangul cell width in pixels (sheet_config.py). -/
def W_HANGUL_BASE : Nat := 13

/-- `ASCENT = 16 * SCALE` (sheet_config.py). -/
def ASCENT : Int := 16 * SCALE

/-! ## tga_reader.py: `TgaImage` and `get_pixel` -/

/-- `TgaImage`: width, height and a flat row-major RGBA8888 pixel array
(tga_reader.py). -/
structure TgaImage where
  width : Nat
  height : Nat
  pixels : List Nat
deriving DecidableEq

/-- `TgaImage.get_pixel` (tga_reader.py lines 21-25): returns 0 for
coordinates outside the image, otherwise reads `pixels[y*width+x]`.
The in-bounds list access is modelled with `List.get?` so that an
out-of-range index (impossible when `pixels` has `width*height`
entries) shows up as `none` instead of a Python `IndexError`. -/
def get_pixel (img : TgaImage) (x y : Int) : Option Nat :=
  if x < 0 ∨ (img.width : Int) ≤ x ∨ y < 0 ∨ (img.height : Int) ≤ y then
    some 0
  else
    img.pixels.get? (y * (img.width : Int) + x).toNat

/-! ## glyph_parser.py: tag-column decoding -/

/-- `_tagify` (glyph_parser.py lines 69-71): a pixel whose alpha channel
(lowest byte) is zero decodes as the 32-bit value 0. -/
def tagify (pixel : Nat) : Nat :=
  if pixel &&& 0xFF = 0 then 0 else pixel

/-- The width-decoding loop of `parse_variable_sheet` (glyph_parser.py
lines 112-116): `width |= (1 << y)` for each tag-column row `y < 5`
whose pixel has nonzero alpha. The image is abstracted to its
`get_pixel` function (total here: the parser only ever sees full
images). -/
def decode_width (getPx : Nat → Nat → Nat) (sx sy : Nat) : Nat :=
  (List.range 5).foldl
    (fun w y => if getPx sx (sy + y) &&& 0xFF ≠ 0 then w ||| (1 <<< y) else w) 0

/-! ## bitmap_tracer.py: `trace_bitmap` -/

/-- `BASELINE_ROW = 16` (bitmap_tracer.py). -/
def BASELINE_ROW : Int := 16

/-- Pixel test `bitmap[row][col]`, false outside the matrix. -/
def bitAt (bm : List (List Bool)) (r c : Nat) : Bool :=
  (bm.getD r []).getD c false

/-- The per-row run scanner of `trace_bitmap` step 1 (bitmap_tracer.py
lines 38-46): the two nested `while` loops over `col < w` are expressed
as one recursion on `col` that carries the start column of the run
currently open (`st`). Emits maximal runs `(col_start, col_end)`. -/
def scanRowAux (row : List Bool) (w col : Nat) (st : Option Nat) : List (Nat × Nat) :=
  if _h : col < w then
    if row.getD col false then
      match st with
      | none => scanRowAux row w (col+1) (some col)
      | some s => scanRowAux row w (col+1) (some s)
    else
      match st with
      | none => scanRowAux row w (col+1) none
      | some s => (s, col) :: scanRowAux row w (col+1) none
  else
    match st with
    | none => []
    | some s => [(s, col)]
  termination_by w - col

/-- Step 1 of `trace_bitmap`: all horizontal runs `(row, col_start,
col_end)` of the bitmap, row by row. -/
def findRuns (bm : List (List Bool)) (w : Nat) : List (Nat × Nat × Nat) :=
  (List.range bm.length).flatMap
    (fun r => (scanRowAux (bm.getD r []) w 0 none).map (fun p => (r, p.1, p.2)))

/-- The inner `while j < len(runs)` loop of `trace_bitmap` step 2
(bitmap_tracer.py lines 57-65): starting from `rowEnd`, consume
not-yet-used runs with identical column span lying exactly one row
below, stopping at the first run strictly below `rowEnd`. Returns the
final `row_end` and the updated `used` flags. -/
def extendRun (runs : List (Nat × Nat × Nat)) (cs ce rowEnd j : Nat)
    (used : List Bool) : Nat × List Bool :=
  if h : j < runs.length then
    if rowEnd < (runs.get ⟨j, h⟩).1 then (rowEnd, used)
    else if (runs.get ⟨j, h⟩).1 = rowEnd ∧ (runs.get ⟨j, h⟩).2.1 = cs ∧
        (runs.get ⟨j, h⟩).2.2 = ce ∧ used.getD j false = false then
      extendRun runs cs ce ((runs.get ⟨j, h⟩).1 + 1) (j+1) (used.set j true)
    else
      extendRun runs cs ce rowEnd (j+1) used
  else (rowEnd, used)
  termination_by runs.length - j

/-- The outer loop of `trace_bitmap` step 2 (bitmap_tracer.py lines
52-66): merge vertically adjacent identical runs into rectangles
`(row_start, row_end, col_start, col_end)`. -/
def mergeRunsAux (runs : List (Nat × Nat × Nat)) (i : Nat) (used : List Bool) :
    List (Nat × Nat × Nat × Nat) :=
  if h : i < runs.length then
    if used.getD i false then mergeRunsAux runs (i+1) used
    else
      ((runs.get ⟨i, h⟩).1,
       (extendRun runs (runs.get ⟨i, h⟩).2.1 (runs.get ⟨i, h⟩).2.2
         ((runs.get ⟨i, h⟩).1 + 1) (i+1) used).1,
       (runs.get ⟨i, h⟩).2.1, (runs.get ⟨i, h⟩).2.2) ::
      mergeRunsAux runs (i+1)
        (extendRun runs (runs.get ⟨i, h⟩).2.1 (runs.get ⟨i, h⟩).2.2
          ((runs.get ⟨i, h⟩).1 + 1) (i+1) used).2
  else []
  termination_by runs.length - i

/-- `trace_bitmap(bitmap, glyph_width_px)` (bitmap_tracer.py lines
19-77). Returns contours `(x0, y_bottom, x1, y_top)` in font units with
`x = col * SCALE` and `y = (BASELINE_ROW - row) * SCALE`. The
`glyph_width_px` argument is unused by the source as well. -/
def trace_bitmap (bm : List (List Bool)) (_glyph_width_px : Nat) :
    List (Int × Int × Int × Int) :=
  if bm.isEmpty ∨ (bm.headD []).isEmpty then []
  else
    (mergeRunsAux (findRuns bm (bm.headD []).length) 0
      (List.replicate (findRuns bm (bm.headD []).length).length false)).map (fun q =>
      ((q.2.2.1 : Int) * SCALE, (BASELINE_ROW - (q.2.1 : Int)) * SCALE,
       (q.2.2.2 : Int) * SCALE, (BASELINE_ROW - (q.1 : Int)) * SCALE))

/-- Re-rasterization read off a contour, as the claim words it: divide
the rectangle's coordinates by the scale factor and un-flip the
vertical axis around the baseline row; the pixel `(r, c)` lies inside
the rectangle iff the resulting column range contains `c` and the
resulting row range contains `r`. -/
def rasterCovers (q : Int × Int × Int × Int) (r c : Nat) : Prop :=
  q.1 / SCALE ≤ (c : Int) ∧ (c : Int) < q.2.2.1 / SCALE ∧
  BASELINE_ROW - q.2.2.2 / SCALE ≤ (r : Int) ∧ (r : Int) < BASELINE_ROW - q.2.1 / SCALE

instance (q : Int × Int × Int × Int) (r c : Nat) : Decidable (rasterCovers q r c) := by
  unfold rasterCovers; infer_instance

/-! ## sheet_config.py: Hangul constants and row selection -/

/-- `JUNG_COUNT = 21` (sheet_config.py). -/
def JUNG_COUNT : Nat := 21

/-- `JONG_COUNT = 28` (sheet_config.py). -/
def JONG_COUNT : Nat := 28

/-- `JUNGSEONG_I` (sheet_config.py line 269). -/
def JUNGSEONG_I : List Nat := [21, 61]

/-- `JUNGSEONG_OU` (sheet_config.py line 270). -/
def JUNGSEONG_OU : List Nat := [9, 13, 14, 18, 34, 35, 39, 45, 51, 53, 54, 64, 73, 80, 83]

/-- `JUNGSEONG_OU_COMPLEX` (sheet_config.py lines 271-275). -/
def JUNGSEONG_OU_COMPLEX : List Nat :=
  [10, 11, 16] ++ List.range' 22 12 ++ [36, 37, 38] ++ List.range' 41 4 ++
  List.range' 46 5 ++ List.range' 56 4 ++ [63] ++ List.range' 67 6 ++
  List.range' 74 6 ++ List.range' 81 3 ++ List.range' 85 7 ++ [93, 94]

/-- `JUNGSEONG_RIGHTIE` (sheet_config.py line 276). -/
def JUNGSEONG_RIGHTIE : List Nat :=
  [2, 4, 6, 8, 11, 16, 32, 33, 37, 42, 44, 48, 50, 71, 72, 75, 78, 79, 83, 86, 87, 88, 94]

/-- `JUNGSEONG_OEWI` (sheet_config.py line 277). -/
def JUNGSEONG_OEWI : List Nat := [12, 15, 17, 40, 52, 55, 89, 90, 91]

/-- `JUNGSEONG_EU` (sheet_config.py line 278). -/
def JUNGSEONG_EU : List Nat := [19, 62, 66]

/-- `JUNGSEONG_YI` (sheet_config.py line 279). -/
def JUNGSEONG_YI : List Nat := [20, 60, 65]

/-- `JUNGSEONG_UU` (sheet_config.py line 280). -/
def JUNGSEONG_UU : List Nat :=
  [14, 15, 16, 17, 18, 27, 30, 41, 42, 43, 44, 45, 46, 47, 48, 49, 50, 51, 52,
   53, 54, 55, 59, 67, 68, 73, 77, 78, 79, 80, 81, 82, 83, 84, 91]

/-- `CHOSEONG_GIYEOKS` (sheet_config.py line 282). -/
def CHOSEONG_GIYEOKS : List Nat :=
  [0, 1, 15, 23, 30, 34, 45, 51, 56, 65, 82, 90, 100, 101, 110, 111, 115]

/-- `HANGUL_PEAKS_WITH_EXTRA_WIDTH` (sheet_config.py line 283). -/
def HANGUL_PEAKS_WITH_EXTRA_WIDTH : List Nat :=
  [2, 4, 6, 8, 11, 16, 32, 33, 37, 42, 44, 48, 50, 71, 75, 78, 79, 83, 86, 87, 88, 94]

/-- `GIYEOK_REMAPPING = {5: 19, 6: 20, 7: 21, 8: 22, 11: 23, 12: 24}`
(sheet_config.py line 285). -/
def GIYEOK_REMAPPING : List (Nat × Nat) :=
  [(5, 19), (6, 20), (7, 21), (8, 22), (11, 23), (12, 24)]

/-- The row computed by `get_han_initial_row` before the giyeok
remapping step (sheet_config.py lines 329-345): classify the jungseong
index `p`, then add 1 when a jongseong is present (`f ≠ 0`). -/
def han_initial_row_base (p f : Nat) : Nat :=
  let ret :=
    if p ∈ JUNGSEONG_I then 3
    else if p ∈ JUNGSEONG_OEWI then 11
    else if p ∈ JUNGSEONG_OU_COMPLEX then 7
    else if p ∈ JUNGSEONG_OU then 5
    else if p ∈ JUNGSEONG_EU then 9
    else if p ∈ JUNGSEONG_YI then 13
    else 1
  if f ≠ 0 then ret + 1 else ret

/-- `get_han_initial_row(i, p, f)` (sheet_config.py lines 328-352).
`none` models the `ValueError` raised when the giyeok remapping table
has no entry for the computed row. -/
def get_han_initial_row (i p f : Nat) : Option Nat :=
  let ret := han_initial_row_base p f
  if p ∈ JUNGSEONG_UU ∧ i ∈ CHOSEONG_GIYEOKS then
    GIYEOK_REMAPPING.lookup ret
  else some ret

/-- `get_han_medial_row(i, p, f)` (sheet_config.py lines 355-356). -/
def get_han_medial_row (_i _p f : Nat) : Nat :=
  if f = 0 then 15 else 16

/-- `get_han_final_row(i, p, f)` (sheet_config.py lines 359-360). -/
def get_han_final_row (_i p _f : Nat) : Nat :=
  if p ∈ JUNGSEONG_RIGHTIE then 18 else 17

/-- `to_hangul_choseong_index` (sheet_config.py lines 304-309); `none`
models the raised `ValueError`. -/
def to_hangul_choseong_index (c : Nat) : Option Nat :=
  if 0x1100 ≤ c ∧ c ≤ 0x115F then some (c - 0x1100)
  else if 0xA960 ≤ c ∧ c ≤ 0xA97F then some (c - 0xA960 + 96)
  else none

/-- `to_hangul_jungseong_index` (sheet_config.py lines 312-317);
returns `None` outside the ranges. -/
def to_hangul_jungseong_index (c : Nat) : Option Nat :=
  if 0x1160 ≤ c ∧ c ≤ 0x11A7 then some (c - 0x1160)
  else if 0xD7B0 ≤ c ∧ c ≤ 0xD7C6 then some (c - 0xD7B0 + 72)
  else none

/-- `to_hangul_jongseong_index` (sheet_config.py lines 320-325);
returns `None` outside the ranges. -/
def to_hangul_jongseong_index (c : Nat) : Option Nat :=
  if 0x11A8 ≤ c ∧ c ≤ 0x11FF then some (c - 0x11A8 + 1)
  else if 0xD7CB ≤ c ∧ c ≤ 0xD7FB then some (c - 0xD7CB + 88 + 1)
  else none

/-! ## hangul.py: syllable composition -/

/-- `_compose_bitmaps(a, b, w, h)` (hangul.py lines 23-33): the
pointwise OR of two bitmaps on a fresh `h × w` canvas, out-of-range
cells reading as 0. -/
def compose_bitmaps (a b : List (List Bool)) (w h : Nat) : List (List Bool) :=
  (List.range h).map (fun row => (List.range w).map (fun col =>
    (a.getD row []).getD col false || (b.getD row []).getD col false))

/-- `_compose_bitmap_into(target, source, w, h)` (hangul.py lines
36-41): OR `source` into `target` for rows `< min(h, len(target),
len(source))` and columns `< min(w, len(target[row]),
len(source[row]))`; expressed as a pure rebuild of `target`. -/
def compose_bitmap_into (target source : List (List Bool)) (w h : Nat) :
    List (List Bool) :=
  target.mapIdx (fun r trow =>
    trow.mapIdx (fun c tv =>
      if r < h ∧ r < source.length ∧ c < w ∧ c < (source.getD r []).length ∧
          (source.getD r []).getD c false then true
      else tv))

/-- The codepoint-offset decomposition of `compose_hangul` (hangul.py
lines 70-73): `index_cho = n // (JUNG_COUNT*JONG_COUNT)`,
`index_jung = n // JONG_COUNT % JUNG_COUNT`, `index_jong = n % JONG_COUNT`. -/
def hangulDecompose (n : Nat) : Nat × Nat × Nat :=
  (n / (JUNG_COUNT * JONG_COUNT), n / JONG_COUNT % JUNG_COUNT, n % JONG_COUNT)

/-- The jamo-sheet indices of `compose_hangul` (hangul.py lines 75-89):
map the decomposed indices to jamo codepoints, then back through the
`to_hangul_*_index` functions; `none` models the `ValueError` from
`to_hangul_choseong_index`. -/
def hangulSheetIndices (n : Nat) : Option (Nat × Nat × Nat) :=
  let d := hangulDecompose n
  let choCp := 0x1100 + d.1
  let jungCp := 0x1161 + d.2.1
  let jongCp := if d.2.2 > 0 then 0x11A8 + d.2.2 - 1 else 0
  match to_hangul_choseong_index choCp with
  | none => none
  | some iCho =>
    let iJung := (to_hangul_jungseong_index jungCp).getD 0
    let iJong := if jongCp ≠ 0 then (to_hangul_jongseong_index jongCp).getD 0 else 0
    some (iCho, iJung, iJong)

/-- The per-syllable body of `compose_hangul` (hangul.py lines 69-110),
for the syllable at codepoint offset `n`, with the jamo sheet
abstracted to `getJamo index row ↦ bitmap`. Returns the composed
bitmap and the advance width, or `none` when a `ValueError` is raised
(unknown choseong codepoint or missing giyeok remapping entry). -/
def composeSyllable (getJamo : Nat → Nat → List (List Bool)) (n : Nat) :
    Option (List (List Bool) × Nat) :=
  let cellW := W_HANGUL_BASE
  let cellH := H
  let d := hangulDecompose n
  match hangulSheetIndices n with
  | none => none
  | some idx =>
    let iCho := idx.1
    let iJung := idx.2.1
    let iJong := idx.2.2
    match get_han_initial_row iCho iJung iJong with
    | none => none
    | some choRow =>
      let jungRow := get_han_medial_row iCho iJung iJong
      let jongRow := get_han_final_row iCho iJung iJong
      let choBitmap := getJamo iCho choRow
      let jungBitmap := getJamo iJung jungRow
      let composed := compose_bitmaps choBitmap jungBitmap cellW cellH
      let composed :=
        if d.2.2 > 0 then compose_bitmap_into composed (getJamo iJong jongRow) cellW cellH
        else composed
      let advanceWidth :=
        if iJung ∈ HANGUL_PEAKS_WITH_EXTRA_WIDTH then cellW + 1 else cellW
      some (composed, advanceWidth)

/-! ## glyph_parser.py: `GlyphProps`, `ExtractedGlyph`, glyph store -/

/-- `GlyphProps` (glyph_parser.py lines 26-59), restricted to the
fields the verified components read. -/
structure GlyphProps where
  width : Nat
  align_where : Nat
  write_on_top : Int
  stack_where : Nat
  ext_info : List Nat
  has_kern_data : Bool
  is_kern_y_type : Bool
  kerning_mask : Nat
  directive_opcode : Nat
deriving DecidableEq

/-- A `GlyphProps` with the dataclass defaults of glyph_parser.py. -/
def defaultProps : GlyphProps :=
  ⟨0, 0, -1, 0, List.replicate 15 0, false, false, 255, 0⟩

/-- `GlyphProps.required_ext_info_count` (glyph_parser.py lines 49-54):
2 when `stack_where == STACK_BEFORE_N_AFTER` (= 2), 7 when the
directive opcode is in the reserved `0b10000_000 ..= 0b10000_111`
range, else 0. -/
def required_ext_info_count (g : GlyphProps) : Nat :=
  if g.stack_where = 2 then 2
  else if 0b10000000 ≤ g.directive_opcode ∧ g.directive_opcode ≤ 0b10000111 then 7
  else 0

/-- `GlyphProps.is_pragma("replacewith")` (glyph_parser.py lines 56-59). -/
def is_replacewith (g : GlyphProps) : Bool :=
  0b10000000 ≤ g.directive_opcode ∧ g.directive_opcode ≤ 0b10000111

/-- `ExtractedGlyph` (glyph_parser.py lines 62-66). -/
structure ExtractedGlyph where
  codepoint : Nat
  props : GlyphProps
  bitmap : List (List Bool)
deriving DecidableEq

/-- The glyph store: the Python dict `codepoint -> ExtractedGlyph`
modelled as an insertion-ordered association list (CPython dicts
preserve insertion order). -/
abbrev GlyphStore := List (Nat × ExtractedGlyph)

/-- Assignment `d[k] = v` with Python dict semantics: overwrite in
place when the key is already present, append otherwise. -/
def dictSet (d : List ((Nat × Nat) × Int)) (k : Nat × Nat) (v : Int) :
    List ((Nat × Nat) × Int) :=
  if d.any (fun p => p.1 = k) then
    d.map (fun p => if p.1 = k then (k, v) else p)
  else d ++ [(k, v)]

/-! ## keming_machine.py: rules and pair generation -/

/-- The backquote character (U+0060) used in the kerning pattern
strings. -/
def bq : Char := Char.ofNat 96

/-- `KEMING_BIT_MASK = [1 << b for b in [7,6,5,4,3,2,1,0,15,14]]`
(sheet_config.py line 364). -/
def KEMING_BIT_MASK : List Nat := [7, 6, 5, 4, 3, 2, 1, 0, 15, 14].map (1 <<< ·)

/-- `_Ing` (keming_machine.py lines 20-35): a pattern matcher holding
its source string and the derived `care_bits`/`rule_bits`. -/
structure Ing where
  s : List Char
  care_bits : Nat
  rule_bits : Nat
deriving DecidableEq

/-- The `_Ing.__init__` loop (keming_machine.py lines 23-32): `'@'`
sets the position's bit in both `care_bits` and `rule_bits`, backquote
sets it only in `care_bits`. -/
def mkIng (s : List Char) : Ing :=
  let folded := s.enum.foldl (fun (acc : Nat × Nat) p =>
    if p.2 = '@' then
      (acc.1 ||| KEMING_BIT_MASK.getD p.1 0, acc.2 ||| KEMING_BIT_MASK.getD p.1 0)
    else if p.2 = bq then
      (acc.1 ||| KEMING_BIT_MASK.getD p.1 0, acc.2)
    else acc) (0, 0)
  ⟨s, folded.1, folded.2⟩

/-- `_Ing.matches` (keming_machine.py lines 34-35). -/
def Ing.matches (ing : Ing) (shape_bits : Nat) : Bool :=
  shape_bits &&& ing.care_bits = ing.rule_bits

/-- `_Kem` (keming_machine.py lines 38-43). -/
structure Kem where
  first : Ing
  second : Ing
  bb : Nat
  yy : Nat
deriving DecidableEq

instance : Inhabited Ing := ⟨mkIng []⟩

instance : Inhabited Kem := ⟨⟨mkIng [], mkIng [], 2, 1⟩⟩

/-- The six hand-specified base rules of `_build_kerning_rules`
(keming_machine.py lines 48-55); `bb`/`yy` default to 2/1. -/
def baseRules : List Kem :=
  [ ⟨mkIng ['_', bq, '_', '@', '_', '_', '_', bq, '_', '_'],
     mkIng [bq, '_', bq, '_', '_', '_', '@', '_', '_', '_'], 2, 1⟩
  , ⟨mkIng ['_', '@', '_', bq, '_', '_', '_', bq, '_', '_'],
     mkIng [bq, '_', '_', '_', '_', '_', '_', '_', '_', '_'], 2, 1⟩
  , ⟨mkIng ['_', '@', '_', '@', '_', '_', '_', bq, '_', '_'],
     mkIng [bq, '_', '_', '_', '@', '_', '@', '_', '_', '_'], 1, 1⟩
  , ⟨mkIng ['_', '@', '_', '@', '_', bq, '_', bq, '_', '_'],
     mkIng [bq, '_', '_', '_', '_', '_', '@', '_', '_', '_'], 2, 1⟩
  , ⟨mkIng ['_', '_', '_', bq, '_', bq, '_', '_', '_', '_'],
     mkIng [bq, '_', '_', '_', '@', '_', bq, '_', '_', '_'], 2, 1⟩
  , ⟨mkIng ['_', '_', '_', bq, '_', bq, '_', '_', '_', '_'],
     mkIng [bq, '_', '@', '_', '_', '_', bq, '_', '_', '_'], 2, 1⟩
  ]

/-- The character-level pairwise swap of the mirroring loop in
`_build_kerning_rules` (keming_machine.py lines 63-67): for
`c = 0, 2, 4, 6, 8` append the characters at positions `c+1`, `c`. -/
def swapPairs (s : List Char) : List Char :=
  (List.range' 0 5).flatMap (fun k => [s.getD (2*k+1) '_', s.getD (2*k) '_'])

/-- The auto-derived mirrored rules of `_build_kerning_rules`
(keming_machine.py lines 57-72): the new left string is the pairwise
swap of the base rule's right string and vice versa; `bb`/`yy` are
copied. -/
def mirroredRules : List Kem :=
  baseRules.map (fun rule =>
    ⟨mkIng (swapPairs rule.second.s), mkIng (swapPairs rule.first.s), rule.bb, rule.yy⟩)

/-- `_KERNING_RULES = base_rules + mirrored` (keming_machine.py line 74). -/
def KERNING_RULES : List Kem := baseRules ++ mirroredRules

/-- The bit-position transpose corresponding to the pairwise string
swap: exchange the bit pairs (7,6), (5,4), (3,2), (1,0) and (15,14) of
a kerning mask, leaving every other bit in place (0x4055 holds the
low bit of each pair, 0xC0FF the union of all ten positions). -/
def mirrorMask (m : Nat) : Nat :=
  (m ^^^ (m &&& 0xC0FF)) ||| ((m &&& 0x4055) <<< 1) ||| ((m >>> 1) &&& 0x4055)

/-- The index permutation realized by `mirrorMask`: exchange 0↔1, 2↔3,
4↔5, 6↔7 and 14↔15, fix everything else. -/
def mirrorIdx (i : Nat) : Nat :=
  if i < 16 then [1, 0, 3, 2, 5, 4, 7, 6, 8, 9, 10, 11, 12, 13, 15, 14].getD i i else i

/-- `LOWERCASE_RS` (sheet_config.py line 367). -/
def LOWERCASE_RS : List Nat :=
  [0x72, 0x155, 0x157, 0x159, 0x211, 0x213, 0x27C, 0x1E59, 0x1E58, 0x1E5F]

/-- `DOTS` (sheet_config.py line 368). -/
def DOTS : List Nat := [0x2C, 0x2E]

/-- The r+dot special stage of `generate_kerning_pairs`
(keming_machine.py lines 98-103): `result[(r, d)] = -1 * SCALE` for
every r/dot pair whose two codepoints are both in the glyph store. -/
def rdotStage (store : GlyphStore) (res : List ((Nat × Nat) × Int)) :
    List ((Nat × Nat) × Int) :=
  LOWERCASE_RS.foldl (fun res r =>
    DOTS.foldl (fun res d =>
      if (store.lookup r).isSome ∧ (store.lookup d).isSome then
        dictSet res (r, d) (-1 * SCALE)
      else res) res) res

/-- `kernable`/`kern_codes` (keming_machine.py lines 89, 106): the
codepoints of the store whose props carry kerning data, in store
order. -/
def kernCodes (store : GlyphStore) : List Nat :=
  (store.filter (fun p => p.2.props.has_kern_data)).map Prod.fst

/-- Kern props lookup used by the engine loop (defaults are never hit
for codes produced by `kernCodes`). -/
def kernProps (store : GlyphStore) (cp : Nat) : GlyphProps :=
  ((store.lookup cp).map ExtractedGlyph.props).getD defaultProps

/-- The `for rule in _KERNING_RULES: ... break` search (keming_machine.py
lines 117-123): the first rule whose matchers accept both masks. -/
def firstRule (maskL maskR : Nat) : Option Kem :=
  KERNING_RULES.find? (fun k => k.first.matches maskL && k.second.matches maskR)

/-- The contraction chosen for a pair (keming_machine.py line 119):
`yy` when either glyph is y-kern-type, else `bb`. -/
def contractionFor (k : Kem) (lp rp : GlyphProps) : Nat :=
  if lp.is_kern_y_type || rp.is_kern_y_type then k.yy else k.bb

/-- The body of the engine double loop for one ordered pair
(keming_machine.py lines 117-123): assign `-contraction * SCALE` when
the first matching rule has positive contraction. -/
def enginePairStep (store : GlyphStore) (res : List ((Nat × Nat) × Int))
    (l r : Nat) : List ((Nat × Nat) × Int) :=
  match firstRule (kernProps store l).kerning_mask (kernProps store r).kerning_mask with
  | some rule =>
    if contractionFor rule (kernProps store l) (kernProps store r) > 0 then
      dictSet res (l, r)
        (-(contractionFor rule (kernProps store l) (kernProps store r) : Int) * SCALE)
    else res
  | none => res

/-- The kerning value the engine assigns to an ordered pair, when it
assigns one: the first matching rule's contraction, negated and
scaled, provided it is positive. -/
def enginePairValue (store : GlyphStore) (l r : Nat) : Option Int :=
  match firstRule (kernProps store l).kerning_mask (kernProps store r).kerning_mask with
  | some rule =>
    if contractionFor rule (kernProps store l) (kernProps store r) > 0 then
      some (-(contractionFor rule (kernProps store l) (kernProps store r) : Int) * SCALE)
    else none
  | none => none

/-- The engine double loop of `generate_kerning_pairs`
(keming_machine.py lines 109-123). -/
def engineStage (store : GlyphStore) (res : List ((Nat × Nat) × Int)) :
    List ((Nat × Nat) × Int) :=
  (kernCodes store).foldl (fun res l =>
    (kernCodes store).foldl (fun res r => enginePairStep store res l r) res) res

/-- `generate_kerning_pairs(glyphs)` (keming_machine.py lines 80-126):
the r+dot stage followed by the rule engine, starting from an empty
dict. -/
def generate_kerning_pairs (store : GlyphStore) : List ((Nat × Nat) × Int) :=
  engineStage store (rdotStage store [])

/-! ## font_builder.py: replacewith expansion and compose fallback -/

/-- `_expand_replacewith(glyphs)` (font_builder.py lines 68-87): for
every glyph whose directive is a replacewith pragma, collect the
nonzero entries of the first `required_ext_info_count` ext-info words;
keep the pair when the target list is nonempty. Iterates in store
order like `glyphs.items()`. -/
def expand_replacewith (store : GlyphStore) : List (Nat × List Nat) :=
  store.filterMap (fun p =>
    if is_replacewith p.2.props then
      if ((p.2.props.ext_info.take (required_ext_info_count p.2.props)).filter
          (· ≠ 0)).isEmpty then none
      else some (p.1,
        (p.2.props.ext_info.take (required_ext_info_count p.2.props)).filter (· ≠ 0))
    else none)

/-- Copy of a `GlyphProps` with the advance width replaced (models the
mutation `src_g.props.width = total_width`). -/
def setWidthProps (g : GlyphProps) (w : Nat) : GlyphProps :=
  ⟨w, g.align_where, g.write_on_top, g.stack_where, g.ext_info,
   g.has_kern_data, g.is_kern_y_type, g.kerning_mask, g.directive_opcode⟩

/-- The inner blit of the fallback composition (font_builder.py lines
172-176): OR the source bitmap into the composite at horizontal offset
`x`, restricted to `cols` source columns; the bound `dst_col <
total_width` of the source is implicit here because every composite
row has exactly `total_width` cells. -/
def blit (composite bm : List (List Bool)) (x cols : Nat) : List (List Bool) :=
  composite.mapIdx (fun r crow =>
    crow.mapIdx (fun c v =>
      if x ≤ c ∧ c - x < cols ∧ r < bm.length ∧ (bm.getD r []).getD (c - x) false
      then true else v))

/-- The composite-building loop of step 3b (font_builder.py lines
165-179): start from an all-zero `bmH × totalW` canvas at `x = 0`;
empty-bitmap targets only advance `x` by their width; other targets
are blitted at `x` over `min(width, len(bitmap[0]))` columns (all
columns when the width is 0) and advance `x` by their width when it is
positive. -/
def buildComposite (gs : List ExtractedGlyph) (totalW bmH : Nat) :
    List (List Bool) :=
  (gs.foldl (fun acc tg =>
    if tg.bitmap.isEmpty then (acc.1, acc.2 + tg.props.width)
    else
      let cols :=
        if tg.props.width > 0 then min tg.props.width (tg.bitmap.headD []).length
        else (tg.bitmap.headD []).length
      (blit acc.1 tg.bitmap acc.2 cols,
       if tg.props.width > 0 then acc.2 + tg.props.width else acc.2))
    (List.replicate bmH (List.replicate totalW false), 0)).1

/-- In-place update of a store entry (models mutating the glyph object
held by the dict; position and keys unchanged). -/
def storeUpdate (store : GlyphStore) (k : Nat) (g : ExtractedGlyph) : GlyphStore :=
  store.map (fun p => if p.1 = k then (k, g) else p)

/-- The target glyphs resolved by the fallback composition
(`target_gs`, minus the absent ones) for a target codepoint list. -/
def resolvedTargets (store : GlyphStore) (targets : List Nat) : List ExtractedGlyph :=
  (targets.map (fun t => store.lookup t)).filterMap id

/-- The targets' total advance width (`total_width`,
font_builder.py line 160). -/
def targetsTotalWidth (store : GlyphStore) (targets : List Nat) : Nat :=
  ((resolvedTargets store targets).map (fun g => g.props.width)).sum

/-- The composite height (`bm_height`, font_builder.py line 163):
the maximum bitmap height over targets with nonempty bitmaps,
defaulting to `H`. -/
def targetsBmHeight (store : GlyphStore) (targets : List Nat) : Nat :=
  let hs := ((resolvedTargets store targets).filter
    (fun g => ¬ g.bitmap.isEmpty)).map (fun g => g.bitmap.length)
  if hs.isEmpty then H else hs.foldl max 0

/-- The glyph record the fallback pass writes for a fired replacewith
entry: codepoint kept, width set to the targets' total width, bitmap
the side-by-side composite. -/
def composeResult (store : GlyphStore) (srcG : ExtractedGlyph) (targets : List Nat) :
    ExtractedGlyph :=
  ⟨srcG.codepoint,
   setWidthProps srcG.props (targetsTotalWidth store targets),
   buildComposite (resolvedTargets store targets) (targetsTotalWidth store targets)
     (targetsBmHeight store targets)⟩

/-- One iteration of the compose-fallback loop of step 3b
(font_builder.py lines 151-182) for the replacewith entry
`(src, targets)`: skipped when the source glyph is missing or already
has positive width, when any target is missing, or when the targets'
total advance width is zero; otherwise the source glyph's bitmap
becomes the side-by-side composite and its width the targets' total
width. -/
def composeStep (store : GlyphStore) (entry : Nat × List Nat) : GlyphStore :=
  match store.lookup entry.1 with
  | none => store
  | some srcG =>
    if srcG.props.width > 0 then store
    else
      if (entry.2.map (fun t => store.lookup t)).any (fun o => o.isNone) then store
      else
        if targetsTotalWidth store entry.2 = 0 then store
        else
          storeUpdate store entry.1 (composeResult store srcG entry.2)

/-- Step 3b of `build_font` (font_builder.py lines 149-183): fold the
compose-fallback step over the replacewith substitution list. -/
def composeFallbackPass (store : GlyphStore) (reps : List (Nat × List Nat)) :
    GlyphStore :=
  reps.foldl composeStep store

/-! ## font_builder.py / opentype_features.py: emission order -/

/-- `sorted_cps = sorted(glyphs.keys())` (font_builder.py line 192):
the store's codepoints in ascending order (stable sort, like Python's
`sorted`). -/
def sorted_cps (keys : List Nat) : List Nat :=
  keys.mergeSort (fun a b => decide (a ≤ b))

/-- The `marks` dict of `_generate_mark` (opentype_features.py lines
1078-1083): iterate `glyphs.items()` in store order, keeping glyphs in
the repertoire whose `write_on_top >= 0`. -/
def marksOf (store : GlyphStore) (has : Nat → Bool) : GlyphStore :=
  store.filter (fun p => has p.1 && decide (0 ≤ p.2.props.write_on_top))

/-- The codepoint sequence of the `markClass` statements emitted for
mark class `t` by `_generate_mark` (opentype_features.py lines
1092-1121): the marks dict grouped by `write_on_top`, each group kept
in `marks` iteration order, i.e. store order. -/
def markClassEmissionOrder (store : GlyphStore) (has : Nat → Bool) (t : Int) :
    List Nat :=
  ((marksOf store has).filter (fun p => p.2.props.write_on_top = t)).map Prod.fst

/-! ## opentype_features.py: `_generate_devanagari` -/

/-- `DEVANAGARI_UNICODE_NUQTA_TABLE` (sheet_config.py line 371). -/
def DEVANAGARI_UNICODE_NUQTA_TABLE : List Nat :=
  [0xF0170, 0xF0171, 0xF0172, 0xF0177, 0xF017C, 0xF017D, 0xF0186, 0xF018A]

/-- `to_deva_internal(c)` (sheet_config.py lines 374-379); `none`
models the raised `ValueError`. -/
def to_deva_internal (c : Nat) : Option Nat :=
  if 0x0915 ≤ c ∧ c ≤ 0x0939 then some (c - 0x0915 + 0xF0140)
  else if 0x0958 ≤ c ∧ c ≤ 0x095F then
    some (DEVANAGARI_UNICODE_NUQTA_TABLE.getD (c - 0x0958) 0)
  else none

/-- `_di(u)` of `_generate_devanagari` (opentype_features.py lines
537-543): `to_deva_internal` with the `ValueError` caught, returning
the input unchanged. -/
def di (u : Nat) : Nat := (to_deva_internal u).getD u

/-- `DEVANAGARI_VIRAMA = 0x94D` (sheet_config.py line 408). -/
def DEVANAGARI_VIRAMA : Nat := 0x94D

/-- A generated `sub` statement, abstracted from its feature-file text
to the codepoints it references: the input glyph sequence and the
output glyph. -/
abbrev SubEntry := List Nat × Nat

/-- The consonant-mapping `ccmp` loop of `_generate_devanagari`
(opentype_features.py lines 462-478): `sub uni by internal` for the
consonants U+0915..U+0939 and the nukta forms U+0958..U+095F, guarded
on both codepoints being in the repertoire. -/
def devaCcmpSubs (has : Nat → Bool) : List SubEntry :=
  (List.range' 0x0915 0x25).filterMap (fun uni =>
    match to_deva_internal uni with
    | some internal =>
        if has uni && has internal then some ([uni], internal) else none
    | none => none) ++
  (List.range' 0x0958 8).filterMap (fun uni =>
    match to_deva_internal uni with
    | some internal =>
        if has uni && has internal then some ([uni], internal) else none
    | none => none)

/-- The vowel-decomposition `ccmp` loop (opentype_features.py lines
484-501): replacewith entries for Devanagari codepoints that are not
consonants, with at least two targets, all present. -/
def devaVowelDecompSubs (has : Nat → Bool)
    (replacewith_subs : List (Nat × List Nat)) : List SubEntry :=
  replacewith_subs.filterMap (fun p =>
    if 0x0900 ≤ p.1 ∧ p.1 ≤ 0x097F then
      if (0x0915 ≤ p.1 ∧ p.1 ≤ 0x0939) ∨ (0x0958 ≤ p.1 ∧ p.1 ≤ 0x095F) then none
      else if p.2.length < 2 then none
      else if has p.1 && p.2.all has then some (p.2, p.1) else none
    else none)

/-- The `nukt` loop (opentype_features.py lines 518-526):
`sub internal nukta by internal+48`. -/
def devaNuktSubs (has : Nat → Bool) : List SubEntry :=
  (List.range' 0x0915 0x25).filterMap (fun uni =>
    match to_deva_internal uni with
    | some internal =>
        if has internal && has 0x093C && has (internal + 48) then
          some ([internal, 0x093C], internal + 48)
        else none
    | none => none)

/-- The conjunct table `_conjuncts` of `_generate_devanagari`
(opentype_features.py lines 558-617), as `(c1, c2, ligature)` triples. -/
def devaConjuncts : List (Nat × Nat × Nat) :=
  [ (0x0915, 0x0924, 0xF01BC), (0x0918, 0x091F, 0xF01BD), (0x0918, 0x0920, 0xF01BE),
    (0x0918, 0x0922, 0xF01BF), (0x0919, 0x0915, 0xF01CE), (0x0919, 0x0916, 0xF01CF),
    (0x0919, 0x0917, 0xF01D2), (0x0919, 0x0918, 0xF01D3), (0x0919, 0x0928, 0xF01CD),
    (0x0919, 0x092E, 0xF01D4), (0x091B, 0x0935, 0xF01D5), (0x091C, 0x092F, 0xF01AB),
    (0x091F, 0x0915, 0xF01E0), (0x091F, 0x091F, 0xF01D6), (0x091F, 0x0920, 0xF01D7),
    (0x091F, 0x092A, 0xF01E1), (0x091F, 0x0935, 0xF01D8), (0x091F, 0x0936, 0xF01E2),
    (0x091F, 0x0938, 0xF01E3), (0x0920, 0x0920, 0xF01D9), (0x0920, 0x0935, 0xF01DA),
    (0x0921, 0x0917, 0xF01D0), (0x0921, 0x0921, 0xF01DB), (0x0921, 0x0922, 0xF01DC),
    (0x0921, 0x092D, 0xF01D1), (0x0921, 0x0935, 0xF01DD), (0x0922, 0x0922, 0xF01DE),
    (0x0922, 0x0935, 0xF01DF), (0x0924, 0x0924, 0xF01A3), (0x0926, 0x0917, 0xF01B0),
    (0x0926, 0x0918, 0xF01B1), (0x0926, 0x0926, 0xF01B2), (0x0926, 0x0927, 0xF01B3),
    (0x0926, 0x0928, 0xF01B4), (0x0926, 0x092C, 0xF01B5), (0x0926, 0x092D, 0xF01B6),
    (0x0926, 0x092E, 0xF01B7), (0x0926, 0x092F, 0xF01B8), (0x0926, 0x0935, 0xF01B9),
    (0x0928, 0x0924, 0xF01A4), (0x0928, 0x0928, 0xF01A5), (0x092A, 0x091F, 0xF01C0),
    (0x092A, 0x0920, 0xF01C1), (0x092A, 0x0922, 0xF01C2), (0x0936, 0x091A, 0xF01A8),
    (0x0936, 0x0928, 0xF01A9), (0x0936, 0x0935, 0xF01AA), (0x0937, 0x091F, 0xF01C3),
    (0x0937, 0x0920, 0xF01C4), (0x0937, 0x0922, 0xF01C5), (0x0937, 0x092A, 0xF01A7),
    (0x0938, 0x0935, 0xF01A6), (0x0939, 0x0923, 0xF01C6), (0x0939, 0x0928, 0xF01C7),
    (0x0939, 0x092E, 0xF01C8), (0x0939, 0x092F, 0xF01C9), (0x0939, 0x0932, 0xF01CA),
    (0x0939, 0x0935, 0xF01CB) ]

/-- The `akhn` section (opentype_features.py lines 544-626): the two
akhand ligatures K.SS and J.NY followed by the conjunct table, each
guarded on every referenced codepoint. -/
def devaAkhnSubs (has : Nat → Bool) : List SubEntry :=
  (let ka := di 0x0915
   let ssa := di 0x0937
   let ja := di 0x091C
   let nya := di 0x091E
   (if has ka && has DEVANAGARI_VIRAMA && has ssa && has 0xF01A1 then
      [([ka, DEVANAGARI_VIRAMA, ssa], 0xF01A1)] else []) ++
   (if has ja && has DEVANAGARI_VIRAMA && has nya && has 0xF01A2 then
      [([ja, DEVANAGARI_VIRAMA, nya], 0xF01A2)] else [])) ++
  devaConjuncts.filterMap (fun t =>
    let c1 := di t.1
    let c2 := di t.2.1
    if has c1 && has DEVANAGARI_VIRAMA && has c2 && has t.2.2 then
      some ([c1, DEVANAGARI_VIRAMA, c2], t.2.2)
    else none)

/-- The `half` section (opentype_features.py lines 632-641):
`sub internal virama by internal+240`. -/
def devaHalfSubs (has : Nat → Bool) : List SubEntry :=
  (List.range' 0x0915 0x25).filterMap (fun uni =>
    match to_deva_internal uni with
    | some internal =>
        if has internal && has DEVANAGARI_VIRAMA && has (internal + 240) then
          some ([internal, DEVANAGARI_VIRAMA], internal + 240)
        else none
    | none => none)

/-- The module attribute `SC.DEVANAGARI_RA_SUB` read by
`_generate_devanagari` (opentype_features.py line 651). sheet_config.py
defines `DEVANAGARI_RA`, `DEVANAGARI_RA_SUPER` and
`DEVANAGARI_RA_SUPER_COMPLEX` but no `DEVANAGARI_RA_SUB`, so the
attribute lookup fails: this is `none`, modelling the `AttributeError`
Python raises at that line. -/
def DEVANAGARI_RA_SUB : Option Nat := none

/-- `_generate_devanagari(glyphs, has, replacewith_subs)`
(opentype_features.py lines 456-778), abstracted to the guarded
substitution entries each section emits. The sections up to `half` are
pure; the `blwf` section then begins with
`ra_sub = SC.DEVANAGARI_RA_SUB`, whose failing attribute lookup aborts
the function — the `blwf`/`cjct`/`blws`/`rphf`/`abvs`/`psts` sections
after that line are unreachable and therefore not modelled. -/
def generate_devanagari (has : Nat → Bool)
    (replacewith_subs : List (Nat × List Nat)) : Except String (List SubEntry) :=
  let sections :=
    devaCcmpSubs has ++ devaVowelDecompSubs has replacewith_subs ++
    devaNuktSubs has ++ devaAkhnSubs has ++ devaHalfSubs has
  match DEVANAGARI_RA_SUB with
  | some _ => Except.ok sections
  | none =>
    Except.error "AttributeError: module sheet_config has no attribute DEVANAGARI_RA_SUB"

/-! ## Concrete example stores used as test inputs -/

/-- A store with lowercase r (U+0072) and comma (U+002C), both carrying
kerning data, with masks 0x10 / 0x02 chosen so that the first base rule
matches the ordered pair. -/
def kernStoreExample : GlyphStore :=
  [ (0x72, ⟨0x72, ⟨0, 0, -1, 0, List.replicate 15 0, true, false, 0x10, 0⟩, []⟩)
  , (0x2C, ⟨0x2C, ⟨0, 0, -1, 0, List.replicate 15 0, true, false, 0x02, 0⟩, []⟩) ]

/-- A store holding two mark glyphs (write_on_top = 0) inserted in
descending codepoint order: U+0401 before U+0400. -/
def markStoreInsertion : GlyphStore :=
  [ (0x401, ⟨0x401, ⟨0, 0, 0, 0, List.replicate 15 0, false, false, 255, 0⟩, []⟩)
  , (0x400, ⟨0x400, ⟨0, 0, 0, 0, List.replicate 15 0, false, false, 255, 0⟩, []⟩) ]

/-- The same two mark glyphs inserted in ascending codepoint order. -/
def markStoreSorted : GlyphStore :=
  [ (0x400, ⟨0x400, ⟨0, 0, 0, 0, List.replicate 15 0, false, false, 255, 0⟩, []⟩)
  , (0x401, ⟨0x401, ⟨0, 0, 0, 0, List.replicate 15 0, false, false, 255, 0⟩, []⟩) ]

/-- A store whose glyph 1 carries a replacewith directive (opcode 128,
ext-info target 2) but already has positive width 1; glyph 2 is the
present target of width 3. -/
def replacewithStoreCounter : GlyphStore :=
  [ (1, ⟨1, ⟨1, 0, -1, 0, 2 :: List.replicate 14 0, false, false, 255, 128⟩, [[true]]⟩)
  , (2, ⟨2, ⟨3, 0, -1, 0, List.replicate 15 0, false, false, 255, 0⟩,
      [[true, false, true]]⟩) ]

/-- A glyph carrying a replacewith directive (opcode 128, ext-info
target 2) with zero width and empty bitmap. -/
def replacewithZeroSrc : ExtractedGlyph :=
  ⟨1, ⟨0, 0, -1, 0, 2 :: List.replicate 14 0, false, false, 255, 128⟩, []⟩

/-- A store holding `replacewithZeroSrc` at codepoint 1 and its present
target of width 2 at codepoint 2. -/
def replacewithStoreZero : GlyphStore :=
  [ (1, replacewithZeroSrc)
  , (2, ⟨2, ⟨2, 0, -1, 0, List.replicate 15 0, false, false, 255, 0⟩, [[true, false]]⟩) ]

/-! # Theorems -/

/-! ## C10: `get_pixel` is total and reads out-of-bounds pixels as 0 -/

/-- Claim C10: for every image whose pixel array has `width * height`
entries and every coordinate pair, `TgaImage.get_pixel` is total
(never raises), and whenever `x` or `y` is negative or at least the
image dimension it returns 0, the fully transparent pixel — so
tag-column or bitmap reads past the image edge decode as transparent. -/
theorem get_pixel_total_and_oob_transparent (img : TgaImage)
    (hlen : img.pixels.length = img.width * img.height) (x y : Int) :
    (get_pixel img x y).isSome ∧
    ((x < 0 ∨ (img.width : Int) ≤ x ∨ y < 0 ∨ (img.height : Int) ≤ y) →
      get_pixel img x y = some 0) := by
  by_cases hb : x < 0 ∨ (img.width : Int) ≤ x ∨ y < 0 ∨ (img.height : Int) ≤ y
  · refine ⟨?_, fun _ => ?_⟩ <;> simp [get_pixel, hb]
  · push_neg at hb
    obtain ⟨hx0, hxw, hy0, hyh⟩ := hb
    have hxlt : ¬ (x < 0 ∨ (img.width : Int) ≤ x ∨ y < 0 ∨ (img.height : Int) ≤ y) := by
      push_neg; exact ⟨hx0, hxw, hy0, hyh⟩
    refine ⟨?_, fun hc => absurd hc hxlt⟩
    rw [get_pixel, if_neg hxlt]
    obtain ⟨a, rfl⟩ : ∃ a : Nat, x = (a : Int) := ⟨x.toNat, (Int.toNat_of_nonneg hx0).symm⟩
    obtain ⟨b, rfl⟩ : ∃ b : Nat, y = (b : Int) := ⟨y.toNat, (Int.toNat_of_nonneg hy0).symm⟩
    have haw : a < img.width := by exact_mod_cast hxw
    have hbh : b < img.height := by exact_mod_cast hyh
    have hidx : ((b : Int) * (img.width : Int) + (a : Int)).toNat = b * img.width + a := by
      rw [← Nat.cast_mul, ← Nat.cast_add, Int.toNat_natCast]
    rw [hidx, List.get?_eq_get (by
      rw [hlen]
      calc b * img.width + a < b * img.width + img.width := by omega
        _ = (b + 1) * img.width := by ring
        _ ≤ img.width * img.height := by
            rw [Nat.mul_comm]
            exact Nat.mul_le_mul_left _ (by omega))]
    rfl

/-- Witness for C10 at the concrete 2×2 image `[10, 20, 30, 40]` and
the out-of-range coordinate (5, 0). -/
theorem get_pixel_total_and_oob_transparent_witness :
    (([10, 20, 30, 40] : List Nat).length = 2 * 2) ∧
    ((get_pixel ⟨2, 2, [10, 20, 30, 40]⟩ 5 0).isSome ∧
      ((5 : Int) < 0 ∨ ((2 : Nat) : Int) ≤ 5 ∨ (0 : Int) < 0 ∨ ((2 : Nat) : Int) ≤ 0 →
        get_pixel ⟨2, 2, [10, 20, 30, 40]⟩ 5 0 = some 0)) :=
  ⟨rfl, get_pixel_total_and_oob_transparent ⟨2, 2, [10, 20, 30, 40]⟩ rfl 5 0⟩

/-! ## C8: 5-bit width decode and tagify -/

/-- Claim C8: for every cell of a variable-width sheet, the decoded
advance width equals the OR of `1 << r` over the tag-column rows
`r < 5` whose pixel has nonzero alpha — equivalently, the sum of `2^r`
over exactly those rows — so it always lies in `0..31`; and `_tagify`
forces a whole 32-bit tag word to zero whenever the pixel's alpha
channel is zero. -/
theorem width_decode_or_of_alpha (getPx : Nat → Nat → Nat) (sx sy : Nat) :
    decode_width getPx sx sy =
      (∑ r ∈ Finset.range 5, if getPx sx (sy + r) &&& 0xFF ≠ 0 then 2 ^ r else 0) ∧
    decode_width getPx sx sy < 32 ∧
    (∀ p : Nat, p &&& 0xFF = 0 → tagify p = 0) := by
  have hrange : List.range 5 = [0, 1, 2, 3, 4] := rfl
  refine ⟨?_, ?_, fun p hp => by simp [tagify, hp]⟩ <;>
  · rw [decode_width, hrange]
    by_cases h0 : getPx sx sy &&& 0xFF = 0 <;>
      by_cases h1 : getPx sx (sy + 1) &&& 0xFF = 0 <;>
        by_cases h2 : getPx sx (sy + 2) &&& 0xFF = 0 <;>
          by_cases h3 : getPx sx (sy + 3) &&& 0xFF = 0 <;>
            by_cases h4 : getPx sx (sy + 4) &&& 0xFF = 0 <;>
              simp [List.foldl, h0, h1, h2, h3, h4, Finset.sum_range_succ]

/-- Witness for C8: the decoded width of the all-transparent image is
below 32, and a pixel with zero alpha but nonzero colour bytes
tagifies to 0. -/
theorem width_decode_or_of_alpha_witness :
    decode_width (fun _ _ => 0) 0 0 < 32 ∧
    (0x12AB3400 : Nat) &&& 0xFF = 0 ∧ tagify 0x12AB3400 = 0 :=
  ⟨(width_decode_or_of_alpha (fun _ _ => 0) 0 0).2.1, by decide,
   (width_decode_or_of_alpha (fun _ _ => 0) 0 0).2.2 0x12AB3400 (by decide)⟩

/-! ## C6: giyeok remapping raises on missing entries -/

/-- Claim C6: whenever the jungseong index is in the remapped vowel
class `JUNGSEONG_UU` and the choseong index is in `CHOSEONG_GIYEOKS`,
`get_han_initial_row` consults the closed `GIYEOK_REMAPPING` table on
the computed row: it raises (returns `none`) when the table has no
entry for that row, and returns the remapped row when it has one. -/
theorem giyeok_remap_hard_error (i p f : Nat)
    (hp : p ∈ JUNGSEONG_UU) (hi : i ∈ CHOSEONG_GIYEOKS) :
    (GIYEOK_REMAPPING.lookup (han_initial_row_base p f) = none →
      get_han_initial_row i p f = none) ∧
    (∀ m, GIYEOK_REMAPPING.lookup (han_initial_row_base p f) = some m →
      get_han_initial_row i p f = some m) := by
  constructor
  · intro h
    rw [get_han_initial_row, if_pos ⟨hp, hi⟩, h]
  · intro m h
    rw [get_han_initial_row, if_pos ⟨hp, hi⟩, h]

/-- Witness for C6 at choseong 0 (giyeok), jungseong 14 (a remapped
vowel) with no jongseong: the computed row 5 is remapped to 19. -/
theorem giyeok_remap_hard_error_witness :
    (14 ∈ JUNGSEONG_UU ∧ 0 ∈ CHOSEONG_GIYEOKS) ∧
    (GIYEOK_REMAPPING.lookup (han_initial_row_base 14 0) = some 19 →
      get_han_initial_row 0 14 0 = some 19) :=
  ⟨⟨by decide, by decide⟩,
   (giyeok_remap_hard_error 0 14 0 (by decide) (by decide)).2 19⟩

/-! ## C2: `_generate_devanagari` dies on a missing module attribute -/

/-- Claim C2 (code bug): for every repertoire predicate and replacewith
list, `_generate_devanagari` — called unconditionally by
`generate_features` — reaches `ra_sub = SC.DEVANAGARI_RA_SUB` in its
`blwf` section and raises `AttributeError`, because sheet_config.py
defines no `DEVANAGARI_RA_SUB`; it therefore never returns rule text
at all. -/
theorem generate_devanagari_always_raises (has : Nat → Bool)
    (replacewith_subs : List (Nat × List Nat)) :
    generate_devanagari has replacewith_subs =
      Except.error "AttributeError: module sheet_config has no attribute DEVANAGARI_RA_SUB" :=
  rfl

/-! ## C4: mirrored kerning rules -/

theorem testBit_small (c i : Nat) (hc : c < 2 ^ 16) (hi : 16 ≤ i) : c.testBit i = false :=
  Nat.testBit_lt_two_pow (lt_of_lt_of_le hc (Nat.pow_le_pow_right (by norm_num) hi))

theorem mirrorMask_testBit (m i : Nat) :
    (mirrorMask m).testBit i = m.testBit (mirrorIdx i) := by
  have hC : ∀ j : Nat, Nat.testBit 0xC0FF j =
      [true, true, true, true, true, true, true, true,
       false, false, false, false, false, false, true, true].getD j false := by
    intro j
    rcases Nat.lt_or_ge j 16 with h | h
    · interval_cases j <;> decide
    · rw [List.getD_eq_default _ _ (by simp only [List.length_cons, List.length_nil]; omega),
        testBit_small _ _ (by norm_num) h]
  have h4 : ∀ j : Nat, Nat.testBit 0x4055 j =
      [true, false, true, false, true, false, true, false,
       false, false, false, false, false, false, true, false].getD j false := by
    intro j
    rcases Nat.lt_or_ge j 16 with h | h
    · interval_cases j <;> decide
    · rw [List.getD_eq_default _ _ (by simp only [List.length_cons, List.length_nil]; omega),
        testBit_small _ _ (by norm_num) h]
  rcases Nat.lt_or_ge i 16 with hi | hi
  · interval_cases i <;>
      (simp only [mirrorMask, mirrorIdx, Nat.testBit_or, Nat.testBit_xor, Nat.testBit_and,
        Nat.testBit_shiftLeft, Nat.testBit_shiftRight, hC, h4]
       simp)
  · have e1 : Nat.testBit 0xC0FF i = false := testBit_small _ _ (by norm_num) hi
    have e2 : Nat.testBit 0x4055 i = false := testBit_small _ _ (by norm_num) hi
    have e3 : Nat.testBit 0x4055 (i - 1) = false := by
      rcases Nat.lt_or_ge (i - 1) 16 with h | h
      · have h15 : i - 1 = 15 := by omega
        rw [h15]; decide
      · exact testBit_small _ _ (by norm_num) h
    simp only [mirrorMask, Nat.testBit_or, Nat.testBit_xor, Nat.testBit_and,
      Nat.testBit_shiftLeft, Nat.testBit_shiftRight, e1, e2, e3]
    simp [mirrorIdx, Nat.not_lt.mpr hi]

theorem mirrorIdx_invol (i : Nat) : mirrorIdx (mirrorIdx i) = i := by
  rcases Nat.lt_or_ge i 16 with hi | hi
  · interval_cases i <;> decide
  · simp [mirrorIdx, Nat.not_lt.mpr hi]

theorem mirrorMask_invol (m : Nat) : mirrorMask (mirrorMask m) = m :=
  Nat.eq_of_testBit_eq fun i => by
    rw [mirrorMask_testBit, mirrorMask_testBit, mirrorIdx_invol]

theorem mirrorMask_and (x y : Nat) :
    mirrorMask (x &&& y) = mirrorMask x &&& mirrorMask y :=
  Nat.eq_of_testBit_eq fun i => by
    simp [mirrorMask_testBit, Nat.testBit_and]

theorem mirrorMask_inj {x y : Nat} (h : mirrorMask x = mirrorMask y) : x = y := by
  have h2 := congrArg mirrorMask h
  rwa [mirrorMask_invol, mirrorMask_invol] at h2

theorem matches_mirror_iff (c r m : Nat) :
    (mirrorMask m &&& mirrorMask c = mirrorMask r) ↔ (m &&& c = r) := by
  constructor
  · intro h
    exact mirrorMask_inj (by rwa [mirrorMask_and])
  · intro h
    rw [← mirrorMask_and, h]

theorem Ing_matches_mirror (i1 i2 : Ing)
    (hc : i1.care_bits = mirrorMask i2.care_bits)
    (hr : i1.rule_bits = mirrorMask i2.rule_bits) (x : Nat) :
    i1.matches (mirrorMask x) = i2.matches x := by
  unfold Ing.matches
  rw [hc, hr]
  exact decide_eq_decide.mpr (matches_mirror_iff _ _ _)

theorem kem_mirror_pair (kb km : Kem)
    (hc1 : km.first.care_bits = mirrorMask kb.second.care_bits)
    (hr1 : km.first.rule_bits = mirrorMask kb.second.rule_bits)
    (hc2 : km.second.care_bits = mirrorMask kb.first.care_bits)
    (hr2 : km.second.rule_bits = mirrorMask kb.first.rule_bits)
    (a b : Nat) :
    (km.first.matches (mirrorMask b) && km.second.matches (mirrorMask a)) =
    (kb.first.matches a && kb.second.matches b) := by
  rw [Ing_matches_mirror km.first kb.second hc1 hr1 b,
      Ing_matches_mirror km.second kb.first hc2 hr2 a, Bool.and_comm]

/-- Claim C4: for each of the six base kerning rules, the auto-derived
mirrored rule is exactly the pairwise transpose of the base rule's two
pattern strings — its left pattern is the adjacent-pair swap of the
base rule's right pattern and vice versa, with `bb`/`yy` copied — and
for all kerning masks `a`, `b`, the mirrored rule applied to the
reverse-ordered mirror-mask pair matches exactly when the base rule
matches the original pair, yielding the same contraction magnitudes. -/
theorem kerning_mirror_rules (k : Fin 6) (a b : Nat) :
    ((mirroredRules.getD (k : Nat) default).first.s =
        swapPairs ((baseRules.getD (k : Nat) default).second.s) ∧
     (mirroredRules.getD (k : Nat) default).second.s =
        swapPairs ((baseRules.getD (k : Nat) default).first.s) ∧
     (mirroredRules.getD (k : Nat) default).bb = (baseRules.getD (k : Nat) default).bb ∧
     (mirroredRules.getD (k : Nat) default).yy = (baseRules.getD (k : Nat) default).yy) ∧
    ((mirroredRules.getD (k : Nat) default).first.matches (mirrorMask b) &&
     (mirroredRules.getD (k : Nat) default).second.matches (mirrorMask a)) =
    ((baseRules.getD (k : Nat) default).first.matches a &&
     (baseRules.getD (k : Nat) default).second.matches b) := by
  fin_cases k <;>
    exact ⟨by decide, kem_mirror_pair _ _ (by decide) (by decide) (by decide) (by decide) a b⟩

/-! ## C5: Hangul composition -/

theorem initial_row_isSome (i p f : Nat) (hp : p ≤ 21) :
    (get_han_initial_row i p f).isSome := by
  rw [get_han_initial_row]
  split
  case isFalse h => rfl
  case isTrue h =>
    have hp5 : p = 14 ∨ p = 15 ∨ p = 16 ∨ p = 17 ∨ p = 18 := by
      have hUU := h.1
      revert hUU
      interval_cases p <;> decide
    have hbase : han_initial_row_base p f = 5 + (if f ≠ 0 then 1 else 0) ∨
        han_initial_row_base p f = 11 + (if f ≠ 0 then 1 else 0) ∨
        han_initial_row_base p f = 7 + (if f ≠ 0 then 1 else 0) := by
      rcases hp5 with rfl | rfl | rfl | rfl | rfl <;>
        · rw [han_initial_row_base]
          split <;> simp_arith
    rcases hbase with hb | hb | hb <;> rw [hb] <;> split <;> decide

theorem sheet_indices_eq (n : Nat) (hn : n < 11172) :
    hangulSheetIndices n = some (n / (21 * 28), n / 28 % 21 + 1, n % 28) := by
  have hcho : to_hangul_choseong_index (0x1100 + n / (21 * 28)) = some (n / (21 * 28)) := by
    rw [to_hangul_choseong_index, if_pos ⟨by omega, by omega⟩]
    exact congrArg some (by omega)
  have hjb : n / 28 % 21 < 21 := Nat.mod_lt _ (by norm_num)
  have hjung : to_hangul_jungseong_index (0x1161 + n / 28 % 21) =
      some (n / 28 % 21 + 1) := by
    rw [to_hangul_jungseong_index, if_pos ⟨by omega, by omega⟩]
    exact congrArg some (by omega)
  have hd : hangulDecompose n = (n / (21 * 28), n / 28 % 21, n % 28) := rfl
  rcases Nat.eq_zero_or_pos (n % 28) with hz | hpos
  · simp only [hangulSheetIndices, hd, hz, hcho, hjung]
    norm_num
  · have hjong : to_hangul_jongseong_index (0x11A8 + n % 28 - 1) = some (n % 28) := by
      have hlt : n % 28 < 28 := Nat.mod_lt _ (by norm_num)
      rw [to_hangul_jongseong_index, if_pos ⟨by omega, by omega⟩]
      exact congrArg some (by omega)
    have hne : 0x11A8 + n % 28 - 1 ≠ 0 := by omega
    simp only [hangulSheetIndices, hd, hcho, hjung, hpos, if_pos hpos, hjong, hne,
      ne_eq, not_false_iff, if_true]
    simp [hpos]

/-- Claim C5: for every Hangul syllable codepoint offset `n < 11172`,
composition decomposes `n` as `cho = n / (21*28)`,
`jung = (n / 28) % 21`, `jong = n % 28` (the jamo-sheet column of the
vowel being the vowel index plus one, column 0 holding the filler),
the composition never raises, and the syllable at offset 0 (leading
consonant 0, vowel 0, no trailing consonant) composes to exactly the
OR of the choseong bitmap at row 1 and the jungseong bitmap at row 15
with advance width the base Hangul cell width. -/
theorem hangul_compose_decomposition (getJamo : Nat → Nat → List (List Bool))
    (n : Nat) (hn : n < 11172) :
    hangulDecompose n = (n / (21 * 28), n / 28 % 21, n % 28) ∧
    hangulSheetIndices n = some (n / (21 * 28), n / 28 % 21 + 1, n % 28) ∧
    (composeSyllable getJamo n).isSome ∧
    composeSyllable getJamo 0 =
      some (compose_bitmaps (getJamo 0 1) (getJamo 1 15) W_HANGUL_BASE H,
        W_HANGUL_BASE) := by
  refine ⟨rfl, sheet_indices_eq n hn, ?_, ?_⟩
  · have hrow := initial_row_isSome (n / (21 * 28)) (n / 28 % 21 + 1) (n % 28)
      (by have := Nat.mod_lt (n / 28) (show 0 < 21 by norm_num); omega)
    rcases Option.isSome_iff_exists.mp hrow with ⟨row, hr⟩
    simp [composeSyllable, sheet_indices_eq n hn, hr]
  · have h0 : hangulSheetIndices 0 = some (0, 1, 0) := by decide
    have hr0 : get_han_initial_row 0 1 0 = some 1 := by decide
    simp [composeSyllable, h0, hr0, hangulDecompose, get_han_medial_row,
      show (1 : Nat) ∉ HANGUL_PEAKS_WITH_EXTRA_WIDTH from by decide]

/-- Witness for C5 at `n = 3` with the empty jamo sheet. -/
theorem hangul_compose_decomposition_witness :
    (3 : Nat) < 11172 ∧
    (hangulDecompose 3 = (3 / (21 * 28), 3 / 28 % 21, 3 % 28) ∧
     hangulSheetIndices 3 = some (3 / (21 * 28), 3 / 28 % 21 + 1, 3 % 28) ∧
     (composeSyllable (fun _ _ => []) 3).isSome ∧
     composeSyllable (fun _ _ => []) 0 =
       some (compose_bitmaps [] [] W_HANGUL_BASE H, W_HANGUL_BASE)) :=
  ⟨by norm_num, hangul_compose_decomposition (fun _ _ => []) 3 (by norm_num)⟩

/-! ## C3: kerning pair priority -/

theorem lookup_cons_self (k : Nat × Nat) (v : Int) (d : List ((Nat × Nat) × Int)) :
    ((k, v) :: d).lookup k = some v := by
  simp [List.lookup_cons]

theorem lookup_cons_ne (a : (Nat × Nat) × Int) (d : List ((Nat × Nat) × Int))
    (k : Nat × Nat) (h : k ≠ a.1) : (a :: d).lookup k = d.lookup k := by
  obtain ⟨ak, av⟩ := a
  have h2 : (k == ak) = false := by
    simp only [beq_eq_false_iff_ne, ne_eq]
    simpa using h
  simp [List.lookup_cons, h2]

theorem lookup_dictSet_self (d : List ((Nat × Nat) × Int)) (k : Nat × Nat) (v : Int) :
    (dictSet d k v).lookup k = some v := by
  unfold dictSet
  split
  case isTrue hany =>
    induction d with
    | nil => simp at hany
    | cons a d ih =>
      by_cases ha : a.1 = k
      · simp only [List.map_cons, if_pos ha]
        exact lookup_cons_self k v _
      · simp only [List.any_cons, Bool.or_eq_true, decide_eq_true_eq] at hany
        have h' := hany.resolve_left ha
        simp only [List.map_cons, if_neg ha]
        rw [lookup_cons_ne _ _ _ (by simpa using Ne.symm ha)]
        exact ih (by simpa using h')
  case isFalse hany =>
    induction d with
    | nil => exact lookup_cons_self k v []
    | cons a d ih =>
      simp only [List.any_cons, Bool.or_eq_true, decide_eq_true_eq, not_or] at hany
      rw [List.cons_append, lookup_cons_ne _ _ _ (Ne.symm hany.1)]
      exact ih (by simpa using hany.2)

theorem lookup_dictSet_ne (d : List ((Nat × Nat) × Int)) (k k' : Nat × Nat) (v : Int)
    (h : k' ≠ k) : (dictSet d k v).lookup k' = d.lookup k' := by
  unfold dictSet
  split
  case isTrue hany =>
    clear hany
    induction d with
    | nil => simp
    | cons a d ih =>
      by_cases ha : a.1 = k
      · simp only [List.map_cons, if_pos ha]
        rw [lookup_cons_ne (k, v) _ _ h, lookup_cons_ne a _ _ (by rw [ha]; exact h)]
        exact ih
      · simp only [List.map_cons, if_neg ha]
        by_cases hk' : k' = a.1
        · subst hk'
          obtain ⟨ak, av⟩ := a
          simp [List.lookup_cons]
        · rw [lookup_cons_ne a _ _ hk', lookup_cons_ne a _ _ hk']
          exact ih
  case isFalse hany =>
    clear hany
    induction d with
    | nil =>
      have h2 : (k' == k) = false := by
        simp only [beq_eq_false_iff_ne, ne_eq]
        simpa using h
      simp [List.lookup_cons, h2]
    | cons a d ih =>
      by_cases hk' : k' = a.1
      · subst hk'
        obtain ⟨ak, av⟩ := a
        simp [List.lookup_cons]
      · rw [List.cons_append, lookup_cons_ne a _ _ hk', lookup_cons_ne a _ _ hk']
        exact ih

/-- Generic lookup law for a fold whose every step's effect on a fixed
key `k` is "assign `w` when the guard holds": the fold assigns `w`
exactly when some element passes the guard. -/
theorem lookup_foldl_of_effect {α : Type} (xs : List α)
    (step : List ((Nat × Nat) × Int) → α → List ((Nat × Nat) × Int))
    (k : Nat × Nat) (P : α → Bool) (w : Option Int)
    (heff : ∀ res x, (step res x).lookup k = (if P x then w else none).or (res.lookup k))
    (res : List ((Nat × Nat) × Int)) :
    (xs.foldl step res).lookup k =
      (if xs.any P then w else none).or (res.lookup k) := by
  induction xs generalizing res with
  | nil => simp
  | cons x xs ih =>
    rw [List.foldl_cons, ih, heff]
    by_cases hP : P x <;> by_cases hxs : xs.any P <;> cases w <;>
      simp [hP, hxs, Option.or]

theorem enginePairStep_eq (store : GlyphStore) (res : List ((Nat × Nat) × Int))
    (l r : Nat) :
    enginePairStep store res l r =
      match enginePairValue store l r with
      | some v => dictSet res (l, r) v
      | none => res := by
  unfold enginePairStep enginePairValue
  cases firstRule (kernProps store l).kerning_mask (kernProps store r).kerning_mask with
  | none => rfl
  | some rule =>
    by_cases hc : contractionFor rule (kernProps store l) (kernProps store r) > 0
    · simp [hc]
    · simp [hc]

theorem enginePairStep_lookup (store : GlyphStore) (res : List ((Nat × Nat) × Int))
    (l r a b : Nat) :
    (enginePairStep store res l r).lookup (a, b) =
      (if l = a ∧ r = b then enginePairValue store a b else none).or
        (res.lookup (a, b)) := by
  rw [enginePairStep_eq]
  by_cases hk : l = a ∧ r = b
  · obtain ⟨rfl, rfl⟩ := hk
    rw [if_pos (And.intro rfl rfl)]
    cases hv : enginePairValue store l r with
    | none => simp [Option.or]
    | some v => simp [Option.or, lookup_dictSet_self]
  · rw [if_neg hk, Option.none_or]
    cases hv : enginePairValue store l r with
    | none => rfl
    | some v =>
      refine lookup_dictSet_ne _ _ _ _ (fun hEq => hk ?_)
      have h2 := Prod.mk.inj hEq
      exact ⟨h2.1.symm, h2.2.symm⟩

theorem engineStage_lookup (store : GlyphStore) (res : List ((Nat × Nat) × Int))
    (a b : Nat) :
    (engineStage store res).lookup (a, b) =
      (if a ∈ kernCodes store ∧ b ∈ kernCodes store
       then enginePairValue store a b else none).or (res.lookup (a, b)) := by
  unfold engineStage
  have hinner : ∀ (res : List ((Nat × Nat) × Int)) (l : Nat),
      (((kernCodes store).foldl (fun res r => enginePairStep store res l r) res).lookup
        (a, b)) =
      (if decide (l = a ∧ b ∈ kernCodes store) = true
       then enginePairValue store a b else none).or (res.lookup (a, b)) := by
    intro res l
    rw [lookup_foldl_of_effect (kernCodes store) _ (a, b)
      (fun r => decide (l = a ∧ r = b)) (enginePairValue store a b)
      (fun res r => by
        rw [enginePairStep_lookup]
        by_cases h : l = a ∧ r = b
        · obtain ⟨rfl, rfl⟩ := h
          simp
        · simp [h]) res]
    have hcond : ((kernCodes store).any (fun r => decide (l = a ∧ r = b))) =
        decide (l = a ∧ b ∈ kernCodes store) := by
      rw [Bool.eq_iff_iff]
      simp only [List.any_eq_true, decide_eq_true_eq]
      constructor
      · rintro ⟨r, hr, rfl, rfl⟩
        exact ⟨rfl, hr⟩
      · rintro ⟨rfl, hb⟩
        exact ⟨b, hb, rfl, rfl⟩
    rw [hcond]
  rw [lookup_foldl_of_effect (kernCodes store) _ (a, b)
    (fun l => decide (l = a ∧ b ∈ kernCodes store)) (enginePairValue store a b)
    hinner res]
  have hcond2 : ((kernCodes store).any (fun l => decide (l = a ∧ b ∈ kernCodes store))) =
      decide (a ∈ kernCodes store ∧ b ∈ kernCodes store) := by
    rw [Bool.eq_iff_iff]
    simp only [List.any_eq_true, decide_eq_true_eq]
    constructor
    · rintro ⟨l, hl, rfl, hb⟩
      exact ⟨hl, hb⟩
    · rintro ⟨ha, hb⟩
      exact ⟨a, ha, rfl, hb⟩
  rw [hcond2]
  by_cases h : a ∈ kernCodes store ∧ b ∈ kernCodes store <;> simp [h]

theorem rdotInner_lookup (store : GlyphStore) (res : List ((Nat × Nat) × Int))
    (r a b : Nat) :
    ((DOTS.foldl (fun res d =>
        if (store.lookup r).isSome ∧ (store.lookup d).isSome then
          dictSet res (r, d) (-1 * SCALE)
        else res) res).lookup (a, b)) =
      (if decide (r = a ∧ b ∈ DOTS) = true then
        (if (store.lookup a).isSome ∧ (store.lookup b).isSome
         then some (-1 * SCALE) else none)
       else none).or (res.lookup (a, b)) := by
  rw [lookup_foldl_of_effect DOTS _ (a, b)
    (fun d => decide (r = a ∧ d = b))
    (if (store.lookup a).isSome ∧ (store.lookup b).isSome
     then some (-1 * SCALE) else none)
    (fun res d => by
      by_cases hk : r = a ∧ d = b
      · obtain ⟨rfl, rfl⟩ := hk
        by_cases hc : (store.lookup r).isSome ∧ (store.lookup d).isSome
        · rw [if_pos hc, lookup_dictSet_self, if_pos hc]
          simp
        · rw [if_neg hc, if_neg hc]
          simp
      · by_cases hc : (store.lookup r).isSome ∧ (store.lookup d).isSome
        · rw [if_pos hc]
          have hne : ((a, b) : Nat × Nat) ≠ (r, d) := fun hEq => by
            have h2 := Prod.mk.inj hEq
            exact hk ⟨h2.1.symm, h2.2.symm⟩
          rw [lookup_dictSet_ne _ _ _ _ hne]
          simp [hk]
        · rw [if_neg hc]
          simp [hk]) res]
  have hcond : (DOTS.any (fun d => decide (r = a ∧ d = b))) = decide (r = a ∧ b ∈ DOTS) := by
    rw [Bool.eq_iff_iff]
    simp only [List.any_eq_true, decide_eq_true_eq]
    constructor
    · rintro ⟨d, hd, rfl, rfl⟩
      exact ⟨rfl, hd⟩
    · rintro ⟨rfl, hb⟩
      exact ⟨b, hb, rfl, rfl⟩
  rw [hcond]

theorem rdotStage_lookup (store : GlyphStore) (res : List ((Nat × Nat) × Int))
    (a b : Nat) :
    (rdotStage store res).lookup (a, b) =
      (if a ∈ LOWERCASE_RS ∧ b ∈ DOTS ∧
          (store.lookup a).isSome ∧ (store.lookup b).isSome
       then some (-1 * SCALE) else none).or (res.lookup (a, b)) := by
  unfold rdotStage
  rw [lookup_foldl_of_effect LOWERCASE_RS _ (a, b)
    (fun r => decide (r = a ∧ b ∈ DOTS))
    (if (store.lookup a).isSome ∧ (store.lookup b).isSome
     then some (-1 * SCALE) else none)
    (fun res r => rdotInner_lookup store res r a b) res]
  have hcond2 : (LOWERCASE_RS.any (fun r => decide (r = a ∧ b ∈ DOTS))) =
      decide (a ∈ LOWERCASE_RS ∧ b ∈ DOTS) := by
    rw [Bool.eq_iff_iff]
    simp only [List.any_eq_true, decide_eq_true_eq]
    constructor
    · rintro ⟨r, hr, rfl, hb⟩
      exact ⟨hr, hb⟩
    · rintro ⟨ha, hb⟩
      exact ⟨a, ha, rfl, hb⟩
  rw [hcond2]
  by_cases h1 : a ∈ LOWERCASE_RS ∧ b ∈ DOTS
  · rw [decide_eq_true h1, if_pos rfl]
    by_cases h2 : (store.lookup a).isSome ∧ (store.lookup b).isSome
    · rw [if_pos h2, if_pos ⟨h1.1, h1.2, h2.1, h2.2⟩]
    · rw [if_neg h2, if_neg (fun hcontra => h2 ⟨hcontra.2.2.1, hcontra.2.2.2⟩)]
  · rw [decide_eq_false h1, if_neg (fun hcontra => Bool.false_ne_true hcontra),
      if_neg (fun hcontra => h1 ⟨hcontra.1, hcontra.2.1⟩)]

/-- Counterexample to claim C3 as stated: in `kernStoreExample` the
hard-coded r+dot stage first assigns `(U+0072, U+002C) ↦ -1 * SCALE =
-50`, but the rule engine then overwrites that key with the first
matching rule's `bb = 2` contraction, `-100`: the r+dot "higher
priority" assignment does not survive. -/
theorem kerning_rdot_overwritten_counterexample :
    (0x72 ∈ LOWERCASE_RS ∧ 0x2C ∈ DOTS ∧
      (kernStoreExample.lookup 0x72).isSome ∧ (kernStoreExample.lookup 0x2C).isSome) ∧
    (rdotStage kernStoreExample []).lookup (0x72, 0x2C) = some (-1 * SCALE) ∧
    (generate_kerning_pairs kernStoreExample).lookup (0x72, 0x2C) = some (-100) ∧
    (-100 : Int) ≠ -1 * SCALE := by
  refine ⟨by decide, by decide, by decide, by decide⟩

/-- Amended claim C3: the final kerning table is characterized
per ordered key as follows — inside the rule engine, first-match-wins
holds (the value comes from the first rule in the fixed 12-rule order
matching the pair's masks, via `firstRule`/`enginePairValue`, and no
later rule overwrites it); but the engine has priority over the
hard-coded r+dot exception pairs, which are written first and are
overwritten whenever the engine assigns the same key. -/
theorem kerning_lookup_characterization (store : GlyphStore) (a b : Nat) :
    (generate_kerning_pairs store).lookup (a, b) =
      (if a ∈ kernCodes store ∧ b ∈ kernCodes store
       then enginePairValue store a b else none).or
      (if a ∈ LOWERCASE_RS ∧ b ∈ DOTS ∧
          (store.lookup a).isSome ∧ (store.lookup b).isSome
       then some (-1 * SCALE) else none) := by
  unfold generate_kerning_pairs
  rw [engineStage_lookup, rdotStage_lookup]
  simp

/-! ## C9: the compose-fallback pass -/

theorem lookupG_cons_self {β : Type} (k : Nat) (v : β) (d : List (Nat × β)) :
    ((k, v) :: d).lookup k = some v := by
  simp [List.lookup_cons]

theorem lookupG_cons_ne {β : Type} (a : Nat × β) (d : List (Nat × β)) (k : Nat)
    (h : k ≠ a.1) : (a :: d).lookup k = d.lookup k := by
  obtain ⟨ak, av⟩ := a
  have h2 : (k == ak) = false := by
    simp only [beq_eq_false_iff_ne, ne_eq]
    simpa using h
  simp [List.lookup_cons, h2]

theorem lookup_storeUpdate_ne (store : GlyphStore) (j k : Nat) (g : ExtractedGlyph)
    (h : k ≠ j) : (storeUpdate store j g).lookup k = store.lookup k := by
  unfold storeUpdate
  induction store with
  | nil => rfl
  | cons a d ih =>
    by_cases ha : a.1 = j
    · simp only [List.map_cons, if_pos ha]
      rw [lookupG_cons_ne (j, g) _ _ h, lookupG_cons_ne a _ _ (by rw [ha]; exact h)]
      exact ih
    · simp only [List.map_cons, if_neg ha]
      by_cases hk : k = a.1
      · subst hk
        obtain ⟨a1, a2⟩ := a
        simp [List.lookup_cons]
      · rw [lookupG_cons_ne a _ _ hk, lookupG_cons_ne a _ _ hk]
        exact ih

theorem lookup_storeUpdate_self (store : GlyphStore) (j : Nat) (g g0 : ExtractedGlyph)
    (h : store.lookup j = some g0) :
    (storeUpdate store j g).lookup j = some g := by
  unfold storeUpdate
  induction store with
  | nil => simp at h
  | cons a d ih =>
    by_cases ha : a.1 = j
    · simp only [List.map_cons, if_pos ha]
      exact lookupG_cons_self j g _
    · rw [lookupG_cons_ne a d j (fun he => ha he.symm)] at h
      simp only [List.map_cons, if_neg ha]
      rw [lookupG_cons_ne a _ j (fun he => ha he.symm)]
      exact ih h

theorem composeStep_lookup_ne (store : GlyphStore) (e : Nat × List Nat) (k : Nat)
    (h : k ≠ e.1) : (composeStep store e).lookup k = store.lookup k := by
  unfold composeStep
  cases store.lookup e.1 with
  | none => rfl
  | some srcG =>
    by_cases h1 : srcG.props.width > 0
    · simp [h1]
    · by_cases h2 : (e.2.map (fun t => store.lookup t)).any (fun o => o.isNone)
      · simp [h1, h2]
      · by_cases h3 : targetsTotalWidth store e.2 = 0
        · simp [h1, h2, h3]
        · simp only [if_neg h1, if_neg h2, if_neg h3]
          exact lookup_storeUpdate_ne store e.1 k _ h

theorem foldl_composeStep_lookup_ne (reps : List (Nat × List Nat)) (store : GlyphStore)
    (k : Nat) (h : k ∉ reps.map Prod.fst) :
    (reps.foldl composeStep store).lookup k = store.lookup k := by
  induction reps generalizing store with
  | nil => rfl
  | cons e reps ih =>
    rw [List.foldl_cons, ih _ (fun hm => h (by simp [hm]))]
    exact composeStep_lookup_ne store e k (fun he => h (by simp [he]))

theorem map_fst_filterMap_sublist {β γ : Type} (f : (Nat × β) → Option (Nat × γ))
    (hf : ∀ p q, f p = some q → q.1 = p.1) (l : List (Nat × β)) :
    ((l.filterMap f).map Prod.fst).Sublist (l.map Prod.fst) := by
  induction l with
  | nil => simp
  | cons p l ih =>
    rw [List.filterMap_cons]
    cases hfp : f p with
    | none => exact ih.trans (List.sublist_cons_self _ _)
    | some q =>
      rw [List.map_cons, List.map_cons, hf p q hfp]
      exact ih.cons₂ _

theorem expand_keys_sublist (store : GlyphStore) :
    ((expand_replacewith store).map Prod.fst).Sublist (store.map Prod.fst) := by
  unfold expand_replacewith
  refine map_fst_filterMap_sublist _ (fun p q hq => ?_) store
  by_cases h1 : is_replacewith p.2.props
  · rw [if_pos h1] at hq
    by_cases h2 : ((p.2.props.ext_info.take (required_ext_info_count p.2.props)).filter
        (· ≠ 0)).isEmpty
    · rw [if_pos h2] at hq
      exact absurd hq (by simp)
    · rw [if_neg h2] at hq
      injection hq with h3
      rw [← h3]
  · rw [if_neg h1] at hq
    exact absurd hq (by simp)

theorem composeStep_fires (store : GlyphStore) (e : Nat × List Nat) (g : ExtractedGlyph)
    (hg : store.lookup e.1 = some g) (hw : g.props.width = 0)
    (hall : ∀ t ∈ e.2, (store.lookup t).isSome)
    (hpos : targetsTotalWidth store e.2 ≠ 0) :
    composeStep store e = storeUpdate store e.1 (composeResult store g e.2) := by
  have hany : ¬ ((e.2.map (fun t => store.lookup t)).any (fun o => o.isNone) = true) := by
    intro hc
    rw [List.any_eq_true] at hc
    obtain ⟨o, ho, hno⟩ := hc
    rw [List.mem_map] at ho
    obtain ⟨t, ht, rfl⟩ := ho
    have hs := hall t ht
    cases hsl : store.lookup t with
    | none => rw [hsl] at hs; simp at hs
    | some v => rw [hsl] at hno; simp at hno
  unfold composeStep
  simp only [hg]
  rw [if_neg (by omega : ¬ g.props.width > 0), if_neg hany, if_neg hpos]

/-- Counterexample to claim C9 as stated: in `replacewithStoreCounter`
glyph 1 carries a replacewith directive with the present target glyph
2, yet the pass leaves it untouched (its width stays 1 instead of
becoming the targets' total width 3, its bitmap is not replaced),
because the pass skips every directive glyph whose advance width is
already positive. -/
theorem replacewith_skips_positive_width_counterexample :
    expand_replacewith replacewithStoreCounter = [(1, [2])] ∧
    (replacewithStoreCounter.lookup 2).isSome ∧
    composeFallbackPass replacewithStoreCounter
      (expand_replacewith replacewithStoreCounter) = replacewithStoreCounter ∧
    (replacewithStoreCounter.lookup 1).map (fun g => g.props.width) = some 1 ∧
    targetsTotalWidth replacewithStoreCounter [2] = 3 := by
  refine ⟨by decide, by decide, by decide, by decide, by decide⟩

/-- Amended claim C9: for every glyph store with unique codepoints,
every replacewith entry `(src, targets)` whose source glyph has zero
advance width, whose targets are all present, are not themselves
replacewith sources, and have positive total advance width, the
compose-fallback pass replaces the source glyph's bitmap with the
side-by-side concatenation of the targets' bitmaps at their native
advance widths and sets its advance width to the targets' total
width. -/
theorem compose_fallback_amended (store : GlyphStore) (src : Nat) (targets : List Nat)
    (g : ExtractedGlyph)
    (hnodup : (store.map Prod.fst).Nodup)
    (hmem : (src, targets) ∈ expand_replacewith store)
    (hg : store.lookup src = some g)
    (hw : g.props.width = 0)
    (htargets : ∀ t ∈ targets, (store.lookup t).isSome)
    (hnotrep : ∀ t ∈ targets, t ∉ (expand_replacewith store).map Prod.fst)
    (hpos : targetsTotalWidth store targets ≠ 0) :
    (composeFallbackPass store (expand_replacewith store)).lookup src =
      some (composeResult store g targets) := by
  obtain ⟨l1, l2, hsplit⟩ := List.append_of_mem hmem
  have hkeys : ((expand_replacewith store).map Prod.fst).Nodup :=
    hnodup.sublist (expand_keys_sublist store)
  rw [hsplit] at hkeys
  rw [List.map_append, List.map_cons, List.nodup_append] at hkeys
  obtain ⟨hn1, hn2, hdisj⟩ := hkeys
  have hsrc_l2 : src ∉ l2.map Prod.fst := (List.nodup_cons.mp hn2).1
  have hsrc_l1 : src ∉ l1.map Prod.fst := fun hmem1 =>
    hdisj hmem1 (List.mem_cons_self _ _)
  rw [composeFallbackPass, hsplit, List.foldl_append, List.foldl_cons]
  have hg1 : (l1.foldl composeStep store).lookup src = some g :=
    (foldl_composeStep_lookup_ne l1 store src hsrc_l1).trans hg
  have htarg1 : ∀ t ∈ targets, (l1.foldl composeStep store).lookup t = store.lookup t := by
    intro t ht
    refine foldl_composeStep_lookup_ne l1 store t (fun hmem1 => hnotrep t ht ?_)
    rw [hsplit, List.map_append]
    exact List.mem_append_left _ hmem1
  have hresolved : resolvedTargets (l1.foldl composeStep store) targets =
      resolvedTargets store targets := by
    unfold resolvedTargets
    rw [List.map_congr_left (fun t ht => htarg1 t ht)]
  have htotal1 : targetsTotalWidth (l1.foldl composeStep store) targets =
      targetsTotalWidth store targets := by
    unfold targetsTotalWidth
    rw [hresolved]
  have hres_eq : composeResult (l1.foldl composeStep store) g targets =
      composeResult store g targets := by
    unfold composeResult targetsTotalWidth targetsBmHeight
    rw [hresolved]
  have hstep : composeStep (l1.foldl composeStep store) (src, targets) =
      storeUpdate (l1.foldl composeStep store) src
        (composeResult (l1.foldl composeStep store) g targets) :=
    composeStep_fires _ (src, targets) g hg1 hw
      (fun t ht => (htarg1 t ht).symm ▸ htargets t ht)
      (by rw [htotal1]; exact hpos)
  rw [hstep, foldl_composeStep_lookup_ne l2 _ src hsrc_l2,
    lookup_storeUpdate_self _ _ _ g hg1, hres_eq]

/-- Witness for C9's amended claim on `replacewithStoreZero`. -/
theorem compose_fallback_amended_witness :
    ((replacewithStoreZero.map Prod.fst).Nodup ∧
     (1, [2]) ∈ expand_replacewith replacewithStoreZero ∧
     replacewithStoreZero.lookup 1 = some replacewithZeroSrc ∧
     replacewithZeroSrc.props.width = 0 ∧
     (∀ t ∈ [2], (replacewithStoreZero.lookup t).isSome) ∧
     (∀ t ∈ [2], t ∉ (expand_replacewith replacewithStoreZero).map Prod.fst) ∧
     targetsTotalWidth replacewithStoreZero [2] ≠ 0) ∧
    (composeFallbackPass replacewithStoreZero
        (expand_replacewith replacewithStoreZero)).lookup 1 =
      some (composeResult replacewithStoreZero replacewithZeroSrc [2]) :=
  ⟨⟨by decide, by decide, by decide, by decide, by decide, by decide, by decide⟩,
   compose_fallback_amended replacewithStoreZero 1 [2] replacewithZeroSrc (by decide)
     (by decide) (by decide) (by decide) (by decide) (by decide) (by decide)⟩

/-! ## C7: determinism and emission order -/

/-- Counterexample to claim C7: on a glyph store populated in
descending codepoint order (as `parse_all_sheets` can produce — e.g.
the Hangul Jamo sheet at U+1100 is loaded before Latin Extended-A at
U+0100), the `markClass` statements of `_generate_mark` for mark class
0 are emitted in store-insertion order U+0401, U+0400 — not in
ascending codepoint order. -/
theorem mark_emission_not_sorted_counterexample :
    markClassEmissionOrder markStoreInsertion (fun _ => true) 0 = [0x401, 0x400] ∧
    ¬ (markClassEmissionOrder markStoreInsertion (fun _ => true) 0).Sorted (· ≤ ·) := by
  refine ⟨by decide, ?_⟩
  rw [show markClassEmissionOrder markStoreInsertion (fun _ => true) 0 = [0x401, 0x400]
    from by decide]
  decide

/-- Amended claim C7: emission is deterministic (every generator is a
pure function of the ordered store); the glyph-order/metrics/tracing
loops of `build_font` iterate `sorted(glyphs.keys())`, which is an
ascending-ordered permutation of the store's codepoints; but
`_generate_mark`'s markClass emission follows store-insertion order —
it is ascending only when the store itself is sorted by codepoint. -/
theorem emission_order_amended (keys : List Nat) (store : GlyphStore)
    (has : Nat → Bool) (t : Int) :
    (sorted_cps keys).Sorted (· ≤ ·) ∧
    (sorted_cps keys).Perm keys ∧
    ((store.map Prod.fst).Sorted (· ≤ ·) →
      (markClassEmissionOrder store has t).Sorted (· ≤ ·)) := by
  refine ⟨?_, List.mergeSort_perm keys _, ?_⟩
  · have h := @List.sorted_mergeSort Nat (fun a b : Nat => decide (a ≤ b))
      (fun a b c hab hbc => by
        simp only [decide_eq_true_eq] at *
        omega)
      (fun a b => by
        simp only [Bool.or_eq_true, decide_eq_true_eq]
        omega)
      keys
    exact h.imp (by simp)
  · intro hsorted
    have hsub : (markClassEmissionOrder store has t).Sublist (store.map Prod.fst) := by
      unfold markClassEmissionOrder marksOf
      exact List.Sublist.map _ ((List.filter_sublist _).trans (List.filter_sublist _))
    exact List.Pairwise.sublist hsub hsorted

/-- Witness for C7's amended claim at concrete inputs: the sorted-keys
facts and, for the ascending store `markStoreSorted`, sorted markClass
emission. -/
theorem emission_order_amended_witness :
    ((sorted_cps [3, 1, 2]).Sorted (· ≤ ·) ∧
     (sorted_cps [3, 1, 2]).Perm [3, 1, 2]) ∧
    (markStoreSorted.map Prod.fst).Sorted (· ≤ ·) ∧
    (markClassEmissionOrder markStoreSorted (fun _ => true) 0).Sorted (· ≤ ·) :=
  ⟨⟨(emission_order_amended [3, 1, 2] markStoreSorted (fun _ => true) 0).1,
    (emission_order_amended [3, 1, 2] markStoreSorted (fun _ => true) 0).2.1⟩,
   by decide,
   (emission_order_amended [3, 1, 2] markStoreSorted (fun _ => true) 0).2.2 (by decide)⟩

/-! ## C1: the tracer round-trip (bitmap_tracer.py) -/

/-- Soundness of the per-row scanner: every emitted run lies on true
pixels only (given the invariant on the open-run state). -/

theorem scanRow_sound (row : List Bool) (w : Nat) (col : Nat) (st : Option Nat)
    (hst : ∀ s, st = some s → s < col ∧ ∀ c, s ≤ c → c < col → row.getD c false = true)
    (p : Nat × Nat) (hp : p ∈ scanRowAux row w col st) :
    p.1 < p.2 ∧ ∀ c, p.1 ≤ c → c < p.2 → row.getD c false = true := by
  induction col, st using scanRowAux.induct row w with
  | case1 col hcol hpix ih =>
    rw [scanRowAux, dif_pos hcol, if_pos hpix] at hp
    refine ih ?_ hp
    intro s hs
    have hs2 := Option.some.inj hs
    constructor
    · omega
    · intro c hc1 hc2
      have hc3 : c = col := by omega
      rw [hc3]
      exact hpix
  | case2 col hcol hpix s ih =>
    rw [scanRowAux, dif_pos hcol, if_pos hpix] at hp
    refine ih ?_ hp
    intro s' hs'
    have hs2 := Option.some.inj hs'
    obtain ⟨h1, h2⟩ := hst s rfl
    constructor
    · omega
    · intro c hc1 hc2
      rcases Nat.lt_or_ge c col with h | h
      · exact h2 c (by omega) h
      · have hc3 : c = col := by omega
        rw [hc3]
        exact hpix
  | case3 col hcol hpix ih =>
    rw [scanRowAux, dif_pos hcol, if_neg hpix] at hp
    exact ih (fun s hs => absurd hs (by simp)) hp
  | case4 col hcol hpix s ih =>
    rw [scanRowAux, dif_pos hcol, if_neg hpix] at hp
    rcases List.mem_cons.mp hp with he | hp'
    · obtain ⟨h1, h2⟩ := hst s rfl
      rw [he]
      exact ⟨h1, h2⟩
    · exact ih (fun s' hs' => absurd hs' (by simp)) hp'
  | case5 col hcol =>
    rw [scanRowAux, dif_neg hcol] at hp
    exact absurd hp (by simp)
  | case6 col hcol s =>
    rw [scanRowAux, dif_neg hcol] at hp
    have he := List.mem_singleton.mp hp
    obtain ⟨h1, h2⟩ := hst s rfl
    rw [he]
    exact ⟨h1, h2⟩

/-- Completeness of the per-row scanner: every true pixel inside the
scan range is covered by some emitted run. -/

theorem scanRow_complete (row : List Bool) (w : Nat) (col : Nat) (st : Option Nat)
    (c : Nat) (hcw : c < w) (hpixc : row.getD c false = true)
    (hloc : col ≤ c ∨ ∃ s, st = some s ∧ s ≤ c)
    (hst : ∀ s, st = some s → s ≤ col) :
    ∃ p ∈ scanRowAux row w col st, p.1 ≤ c ∧ c < p.2 := by
  induction col, st using scanRowAux.induct row w with
  | case1 col hcol hpix ih =>
    rw [scanRowAux, dif_pos hcol, if_pos hpix]
    refine ih ?_ ?_
    · rcases hloc with h | ⟨s, hs, _⟩
      · rcases Nat.eq_or_lt_of_le h with he | h2
        · exact Or.inr ⟨col, rfl, by omega⟩
        · exact Or.inl h2
      · exact absurd hs (by simp)
    · intro s hs
      have := Option.some.inj hs
      omega
  | case2 col hcol hpix s ih =>
    rw [scanRowAux, dif_pos hcol, if_pos hpix]
    have hscol := hst s rfl
    refine ih ?_ ?_
    · rcases hloc with h | ⟨s', hs', hsc⟩
      · exact Or.inr ⟨s, rfl, by omega⟩
      · have := Option.some.inj hs'
        exact Or.inr ⟨s, rfl, by omega⟩
    · intro s' hs'
      have := Option.some.inj hs'
      omega
  | case3 col hcol hpix ih =>
    rw [scanRowAux, dif_pos hcol, if_neg hpix]
    refine ih ?_ (fun s hs => absurd hs (by simp))
    rcases hloc with h | ⟨s, hs, _⟩
    · left
      have hne : c ≠ col := fun he => hpix (he ▸ hpixc)
      omega
    · exact absurd hs (by simp)
  | case4 col hcol hpix s ih =>
    rw [scanRowAux, dif_pos hcol, if_neg hpix]
    have hscol := hst s rfl
    have hne : c ≠ col := fun he => hpix (he ▸ hpixc)
    rcases hloc with h | ⟨s', hs', hsc⟩
    · obtain ⟨p, hp, hb⟩ := ih (Or.inl (by omega)) (fun s' hs' => absurd hs' (by simp))
      exact ⟨p, List.mem_cons_of_mem _ hp, hb⟩
    · have hss : s = s' := Option.some.inj hs'
      rcases Nat.lt_or_ge c col with h | h
      · exact ⟨(s, col), List.mem_cons_self _ _, by omega, h⟩
      · obtain ⟨p, hp, hb⟩ := ih (Or.inl (by omega)) (fun s' hs' => absurd hs' (by simp))
        exact ⟨p, List.mem_cons_of_mem _ hp, hb⟩
  | case5 col hcol =>
    rcases hloc with h | ⟨s, hs, _⟩
    · omega
    · exact absurd hs (by simp)
  | case6 col hcol s =>
    rw [scanRowAux, dif_neg hcol]
    rcases hloc with h | ⟨s', hs', hsc⟩
    · omega
    · have hss : s = s' := Option.some.inj hs'
      exact ⟨(s, col), List.mem_singleton_self _, by omega, by omega⟩

/-- The merged row range only grows in `extendRun`. -/

theorem extendRun_le (runs : List (Nat × Nat × Nat)) (cs ce : Nat) :
    ∀ (rowEnd j : Nat) (used : List Bool),
      rowEnd ≤ (extendRun runs cs ce rowEnd j used).1 := by
  intro rowEnd j used
  induction rowEnd, j, used using extendRun.induct runs cs ce with
  | case1 rowEnd j used hj hlt =>
    rw [extendRun, dif_pos hj, if_pos hlt]
  | case2 rowEnd j used hj hlt hcond ih =>
    rw [extendRun, dif_pos hj, if_neg hlt, if_pos hcond]
    omega
  | case3 rowEnd j used hj hlt hcond ih =>
    rw [extendRun, dif_pos hj, if_neg hlt, if_neg hcond]
    exact ih
  | case4 rowEnd j used hj =>
    rw [extendRun, dif_neg hj]

/-- Every row absorbed by `extendRun` was an actual run with the same
column span. -/

theorem extendRun_covered (runs : List (Nat × Nat × Nat)) (cs ce : Nat) :
    ∀ (rowEnd j : Nat) (used : List Bool) (ρ : Nat),
      rowEnd ≤ ρ → ρ < (extendRun runs cs ce rowEnd j used).1 →
      (ρ, cs, ce) ∈ runs := by
  intro rowEnd j used
  induction rowEnd, j, used using extendRun.induct runs cs ce with
  | case1 rowEnd j used hj hlt =>
    intro ρ h1 h2
    rw [extendRun, dif_pos hj, if_pos hlt] at h2
    omega
  | case2 rowEnd j used hj hlt hcond ih =>
    intro ρ h1 h2
    rw [extendRun, dif_pos hj, if_neg hlt, if_pos hcond] at h2
    rcases Nat.eq_or_lt_of_le h1 with he | hlt2
    · have ht : runs.get ⟨j, hj⟩ = (ρ, cs, ce) := by
        obtain ⟨e1, e2, e3, _⟩ := hcond
        have : (runs.get ⟨j, hj⟩) =
            ((runs.get ⟨j, hj⟩).1, (runs.get ⟨j, hj⟩).2.1, (runs.get ⟨j, hj⟩).2.2) := rfl
        rw [this, e1, e2, e3, ← he]
      rw [← ht]
      exact List.get_mem runs j hj
    · exact ih ρ (by omega) h2
  | case3 rowEnd j used hj hlt hcond ih =>
    intro ρ h1 h2
    rw [extendRun, dif_pos hj, if_neg hlt, if_neg hcond] at h2
    exact ih ρ h1 h2
  | case4 rowEnd j used hj =>
    intro ρ h1 h2
    rw [extendRun, dif_neg hj] at h2
    omega

/-- A `used` flag newly set by `extendRun` marks a run with the same
column span whose row lies inside the extended range. -/

theorem extendRun_used_new (runs : List (Nat × Nat × Nat)) (cs ce : Nat) :
    ∀ (rowEnd j : Nat) (used : List Bool) (k : Nat),
      used.getD k false = false →
      ((extendRun runs cs ce rowEnd j used).2).getD k false = true →
      ∃ hk : k < runs.length,
        runs.get ⟨k, hk⟩ = ((runs.get ⟨k, hk⟩).1, cs, ce) ∧
        rowEnd ≤ (runs.get ⟨k, hk⟩).1 ∧
        (runs.get ⟨k, hk⟩).1 < (extendRun runs cs ce rowEnd j used).1 := by
  intro rowEnd j used
  induction rowEnd, j, used using extendRun.induct runs cs ce with
  | case1 rowEnd j used hj hlt =>
    intro k hk1 hk2
    rw [extendRun, dif_pos hj, if_pos hlt] at hk2
    rw [hk1] at hk2
    exact absurd hk2 (by simp)
  | case2 rowEnd j used hj hlt hcond ih =>
    intro k hk1 hk2
    rw [extendRun, dif_pos hj, if_neg hlt, if_pos hcond] at hk2 ⊢
    by_cases hkj : k = j
    · subst hkj
      obtain ⟨e1, e2, e3, e4⟩ := hcond
      refine ⟨hj, ?_, ?_, ?_⟩
      · have : (runs.get ⟨k, hj⟩) =
            ((runs.get ⟨k, hj⟩).1, (runs.get ⟨k, hj⟩).2.1, (runs.get ⟨k, hj⟩).2.2) := rfl
        rw [this, e2, e3]
      · omega
      · have hle := extendRun_le runs cs ce ((runs.get ⟨k, hj⟩).1 + 1) (k+1)
          (used.set k true)
        omega
    · have hk1' : (used.set j true).getD k false = false := by
        rw [List.getD_eq_getElem?_getD, List.getElem?_set_ne (fun he => hkj he.symm),
          ← List.getD_eq_getElem?_getD]
        exact hk1
      obtain ⟨hklen, hspan, hge, hlt2⟩ := ih k hk1' hk2
      exact ⟨hklen, hspan, by omega, hlt2⟩
  | case3 rowEnd j used hj hlt hcond ih =>
    intro k hk1 hk2
    rw [extendRun, dif_pos hj, if_neg hlt, if_neg hcond] at hk2 ⊢
    exact ih k hk1 hk2
  | case4 rowEnd j used hj =>
    intro k hk1 hk2
    rw [extendRun, dif_neg hj] at hk2
    rw [hk1] at hk2
    exact absurd hk2 (by simp)

/-- Soundness of the run merger: every produced rectangle consists of
rows that each carry a run with the rectangle's column span. -/

theorem mergeRunsAux_sound (runs : List (Nat × Nat × Nat)) :
    ∀ (i : Nat) (used : List Bool) (q : Nat × Nat × Nat × Nat),
      q ∈ mergeRunsAux runs i used →
      q.1 < q.2.1 ∧ ∀ ρ, q.1 ≤ ρ → ρ < q.2.1 → (ρ, q.2.2.1, q.2.2.2) ∈ runs := by
  intro i used
  induction i, used using mergeRunsAux.induct runs with
  | case1 i used h hused ih =>
    intro q hq
    rw [mergeRunsAux, dif_pos h, if_pos hused] at hq
    exact ih q hq
  | case2 i used h hused ih =>
    intro q hq
    rw [mergeRunsAux, dif_pos h, if_neg hused] at hq
    rcases List.mem_cons.mp hq with he | ht
    · subst he
      have hle := extendRun_le runs (runs.get ⟨i, h⟩).2.1 (runs.get ⟨i, h⟩).2.2
        ((runs.get ⟨i, h⟩).1 + 1) (i+1) used
      refine ⟨by dsimp only; omega, ?_⟩
      intro ρ h1 h2
      simp only at h1 h2 ⊢
      rcases Nat.eq_or_lt_of_le h1 with he2 | hlt2
      · have : ((runs.get ⟨i, h⟩).1, (runs.get ⟨i, h⟩).2.1, (runs.get ⟨i, h⟩).2.2) =
            runs.get ⟨i, h⟩ := rfl
        rw [← he2, this]
        exact List.get_mem runs i h
      · exact extendRun_covered runs (runs.get ⟨i, h⟩).2.1 (runs.get ⟨i, h⟩).2.2
          ((runs.get ⟨i, h⟩).1 + 1) (i+1) used ρ (by omega) h2
    · exact ih q ht
  | case3 i used h =>
    intro q hq
    rw [mergeRunsAux, dif_neg h] at hq
    exact absurd hq (List.not_mem_nil q)

/-- Completeness of the run merger: every not-yet-used run from index
`i` on is absorbed into some produced rectangle. -/

theorem mergeRunsAux_complete (runs : List (Nat × Nat × Nat)) :
    ∀ (i : Nat) (used : List Bool) (j : Nat) (hj : j < runs.length),
      i ≤ j → used.getD j false = false →
      ∃ q ∈ mergeRunsAux runs i used,
        q.1 ≤ (runs.get ⟨j, hj⟩).1 ∧ (runs.get ⟨j, hj⟩).1 < q.2.1 ∧
        q.2.2.1 = (runs.get ⟨j, hj⟩).2.1 ∧ q.2.2.2 = (runs.get ⟨j, hj⟩).2.2 := by
  intro i used
  induction i, used using mergeRunsAux.induct runs with
  | case1 i used h hused ih =>
    intro j hj hij hfree
    rw [mergeRunsAux, dif_pos h, if_pos hused]
    rcases Nat.eq_or_lt_of_le hij with he | hlt
    · exact absurd hused (by rw [he, hfree]; simp)
    · exact ih j hj hlt hfree
  | case2 i used h hused ih =>
    intro j hj hij hfree
    rw [mergeRunsAux, dif_pos h, if_neg hused]
    rcases Nat.eq_or_lt_of_le hij with he | hlt
    · subst he
      have hle := extendRun_le runs (runs.get ⟨i, h⟩).2.1 (runs.get ⟨i, h⟩).2.2
        ((runs.get ⟨i, h⟩).1 + 1) (i+1) used
      exact ⟨_, List.mem_cons_self _ _, Nat.le_refl _, by dsimp only; omega, rfl, rfl⟩
    · by_cases hnew : (extendRun runs (runs.get ⟨i, h⟩).2.1 (runs.get ⟨i, h⟩).2.2
          ((runs.get ⟨i, h⟩).1 + 1) (i+1) used).2.getD j false = true
      · obtain ⟨hk, hspan, hge, hlt2⟩ := extendRun_used_new runs
          (runs.get ⟨i, h⟩).2.1 (runs.get ⟨i, h⟩).2.2
          ((runs.get ⟨i, h⟩).1 + 1) (i+1) used j hfree hnew
      
        refine ⟨_, List.mem_cons_self _ _, ?_, ?_, ?_, ?_⟩
        · simp only
          omega
        · simp only
          exact hlt2
        · simp only
          have := congrArg (fun t => t.2.1) hspan
          simp only at this
          omega
        · simp only
          have := congrArg (fun t => t.2.2) hspan
          simp only at this
          omega
      · obtain ⟨q, hqmem, hq⟩ := ih j hj hlt (by
          cases hh : (extendRun runs (runs.get ⟨i, h⟩).2.1 (runs.get ⟨i, h⟩).2.2
            ((runs.get ⟨i, h⟩).1 + 1) (i+1) used).2.getD j false
          · rfl
          · exact absurd hh hnew)
        exact ⟨q, List.mem_cons_of_mem _ hqmem, hq⟩
  | case3 i used h =>
    intro j hj hij hfree
    omega

/-- Soundness of `findRuns`: every run covers true pixels only. -/

theorem findRuns_sound (bm : List (List Bool)) (w : Nat) (t : Nat × Nat × Nat)
    (ht : t ∈ findRuns bm w) :
    ∀ c, t.2.1 ≤ c → c < t.2.2 → bitAt bm t.1 c = true := by
  rw [findRuns, List.mem_flatMap] at ht
  obtain ⟨r, _hr, hmem⟩ := ht
  rw [List.mem_map] at hmem
  obtain ⟨p, hp, he⟩ := hmem
  have hs := scanRow_sound (bm.getD r []) w 0 none
    (fun s hs => Option.noConfusion hs) p hp
  intro c h1 h2
  rw [← he] at h1 h2 ⊢
  exact hs.2 c h1 h2

/-- Completeness of `findRuns`: each true pixel lies in some run of its
row. -/

theorem findRuns_complete (bm : List (List Bool)) (w : Nat) (r c : Nat)
    (hr : r < bm.length) (hcw : c < w) (hpix : bitAt bm r c = true) :
    ∃ t ∈ findRuns bm w, t.1 = r ∧ t.2.1 ≤ c ∧ c < t.2.2 := by
  obtain ⟨p, hp, hc1, hc2⟩ := scanRow_complete (bm.getD r []) w 0 none c hcw hpix
    (Or.inl (Nat.zero_le c)) (fun s hs => Option.noConfusion hs)
  refine ⟨(r, p.1, p.2), ?_, rfl, hc1, hc2⟩
  rw [findRuns, List.mem_flatMap]
  exact ⟨r, List.mem_range.mpr hr, List.mem_map.mpr ⟨p, hp, rfl⟩⟩

theorem getD_replicate_false (n k : Nat) :
    (List.replicate n false).getD k false = false := by
  rw [List.getD_eq_getElem?_getD]
  by_cases h : k < n
  · rw [List.getElem?_replicate, if_pos h]
    rfl
  · rw [List.getElem?_eq_none (by simpa using h)]
    rfl

/-- Re-rasterizing a mapped rectangle recovers exactly its pixel box:
the divisions by `SCALE` and the flips around `BASELINE_ROW` cancel. -/

theorem rasterCovers_map_iff (rs re cs ce r c : Nat) :
    rasterCovers ((cs : Int) * SCALE, (BASELINE_ROW - (re : Int)) * SCALE,
      (ce : Int) * SCALE, (BASELINE_ROW - (rs : Int)) * SCALE) r c ↔
    (cs ≤ c ∧ c < ce ∧ rs ≤ r ∧ r < re) := by
  show (cs : Int) * SCALE / SCALE ≤ (c : Int) ∧
      (c : Int) < (ce : Int) * SCALE / SCALE ∧
      BASELINE_ROW - (BASELINE_ROW - (rs : Int)) * SCALE / SCALE ≤ (r : Int) ∧
      (r : Int) < BASELINE_ROW - (BASELINE_ROW - (re : Int)) * SCALE / SCALE ↔ _
  rw [Int.mul_ediv_cancel _ (by decide : ¬(SCALE = 0)),
    Int.mul_ediv_cancel _ (by decide : ¬(SCALE = 0)),
    Int.mul_ediv_cancel _ (by decide : ¬(SCALE = 0)),
    Int.mul_ediv_cancel _ (by decide : ¬(SCALE = 0))]
  omega

/-- C1: for a rectangular bitmap, `trace_bitmap` loses no pixels and
invents none: a pixel `(r, c)` is set iff some emitted contour
rectangle, divided back by the scale factor and un-flipped around the
baseline row, covers it. The `glyph_width_px` argument is irrelevant,
as in the source. -/

theorem trace_bitmap_roundtrip (bm : List (List Bool)) (gw : Nat)
    (hrect : ∀ row ∈ bm, row.length = (bm.headD []).length) (r c : Nat) :
    bitAt bm r c = true ↔ ∃ q ∈ trace_bitmap bm gw, rasterCovers q r c := by
  constructor
  · intro hpix
    have hr : r < bm.length := by
      by_contra hge
      have hnone : bm.getD r [] = [] := by
        rw [List.getD_eq_getElem?_getD, List.getElem?_eq_none (by omega)]
        rfl
      rw [bitAt, hnone] at hpix
      simp at hpix
    have hrow : bm.getD r [] = bm.get ⟨r, hr⟩ := by
      rw [List.getD_eq_getElem?_getD, List.getElem?_eq_getElem hr]
      rfl
    have hlen : (bm.getD r []).length = (bm.headD []).length := by
      rw [hrow]
      exact hrect _ (List.get_mem bm r hr)
    have hcw0 : c < (bm.getD r []).length := by
      by_contra hge
      have hnone : (bm.getD r []).getD c false = false := by
        rw [List.getD_eq_getElem?_getD, List.getElem?_eq_none (by omega)]
        rfl
      rw [bitAt, hnone] at hpix
      exact absurd hpix (by simp)
    have hcw : c < (bm.headD []).length := hlen ▸ hcw0
    obtain ⟨t, htmem, hteq, htc1, htc2⟩ :=
      findRuns_complete bm (bm.headD []).length r c hr hcw hpix
    obtain ⟨⟨j, hj⟩, hget⟩ := List.mem_iff_get.mp htmem
    obtain ⟨q, hqmem, hq1, hq2, hq3, hq4⟩ :=
      mergeRunsAux_complete (findRuns bm (bm.headD []).length) 0
        (List.replicate (findRuns bm (bm.headD []).length).length false) j hj
        (Nat.zero_le j) (getD_replicate_false _ _)
    refine ⟨((q.2.2.1 : Int) * SCALE, (BASELINE_ROW - (q.2.1 : Int)) * SCALE,
       (q.2.2.2 : Int) * SCALE, (BASELINE_ROW - (q.1 : Int)) * SCALE), ?_, ?_⟩
    · rw [trace_bitmap, if_neg]
      · exact List.mem_map.mpr ⟨q, hqmem, rfl⟩
      · rw [List.isEmpty_iff, List.isEmpty_iff]
        push_neg
        constructor
        · intro he
          rw [he] at hr
          exact absurd hr (by simp)
        · intro he
          rw [he] at hcw
          exact absurd hcw (by simp)
    · rw [rasterCovers_map_iff]
      rw [hget] at hq1 hq2 hq3 hq4
      rw [hteq] at hq1 hq2
      exact ⟨by omega, by omega, hq1, hq2⟩
  · intro ⟨q, hqmem, hcov⟩
    rw [trace_bitmap] at hqmem
    by_cases hemp : bm.isEmpty ∨ (bm.headD []).isEmpty
    · rw [if_pos hemp] at hqmem
      exact absurd hqmem (List.not_mem_nil q)
    · rw [if_neg hemp] at hqmem
      obtain ⟨p, hpmem, hpe⟩ := List.mem_map.mp hqmem
      have hsound := mergeRunsAux_sound (findRuns bm (bm.headD []).length) 0
        (List.replicate (findRuns bm (bm.headD []).length).length false) p hpmem
      rw [← hpe, rasterCovers_map_iff] at hcov
      obtain ⟨hc1, hc2, hr1, hr2⟩ := hcov
      have hrun := hsound.2 r hr1 hr2
      exact findRuns_sound bm (bm.headD []).length _ hrun c hc1 hc2

/-- Witness for C1 at the one-pixel bitmap. -/

theorem trace_bitmap_roundtrip_witness :
    bitAt [[true]] 0 0 = true ↔
      ∃ q ∈ trace_bitmap [[true]] 1, rasterCovers q 0 0 :=
  trace_bitmap_roundtrip [[true]] 1 (by intro row hrow; simp at hrow; subst hrow; rfl) 0 0

end TerrarumOTF
